import Mathlib

/-!
Verification of the billing-document generator (`silver/documents_generator.py`).

The generator is embedded shallowly: Django model objects become Lean
structures, the ambient clock becomes an explicit `now : Date` argument,
and every side effect on a collaborator (document creation, charge
appending, subscription `end()`/`save()`, document `issue()`/`save()`)
is recorded both in an explicit document store and in an event trace so
that ordering claims can be stated.
-/

namespace Silver

/-- A calendar date, mirroring Python `datetime.date`. -/
structure Date where
  year : Nat
  month : Nat
  day : Nat
deriving DecidableEq, Repr

/-- Gregorian leap-year rule (as in Python `calendar.isleap`). -/
def isLeapYear (y : Nat) : Bool :=
  (y % 4 == 0 && y % 100 != 0) || (y % 400 == 0)

/-- Number of days in a month of a given year. -/
def daysInMonth (y m : Nat) : Nat :=
  if m == 2 then (if isLeapYear y then 29 else 28)
  else if m == 4 || m == 6 || m == 9 || m == 11 then 30
  else 31

/-- The calendar successor of a date. -/
def nextDay (d : Date) : Date :=
  if d.day < daysInMonth d.year d.month then ⟨d.year, d.month, d.day + 1⟩
  else if d.month < 12 then ⟨d.year, d.month + 1, 1⟩
  else ⟨d.year + 1, 1, 1⟩

/-- `d + datetime.timedelta(days = n)`. -/
def addDays (d : Date) : Nat → Date
  | 0 => d
  | n + 1 => addDays (nextDay d) n

/-- `dt.date(now.year, now.month, 1)` — first day of the current month. -/
def firstOfMonth (now : Date) : Date := ⟨now.year, now.month, 1⟩

/-- Document lifecycle state (`draft` at creation, `issued` after `issue()`). -/
inductive DocState where
  | draft
  | issued
deriving DecidableEq, Repr

/-- Provider flow, selecting invoice vs proforma documents. -/
inductive Flow where
  | invoice
  | proforma
deriving DecidableEq, Repr

/-- The provider fields read by the generator. -/
structure Provider where
  id : Nat
  flow : Flow
  default_document_state : DocState
deriving DecidableEq, Repr

/-- The customer fields read by the generator. -/
structure Customer where
  id : Nat
  consolidated_billing : Bool
  payment_due_days : Nat
deriving DecidableEq, Repr

/-- A plan, read only for its provider. -/
structure Plan where
  provider : Provider
deriving DecidableEq, Repr

/-- The subscription fields and collaborator operations the generator uses.
`state` is the raw state string of the Django model; `should_be_billed`
is the opaque eligibility predicate, a pure function of the billing date. -/
structure Subscription where
  id : Nat
  state : String
  plan : Plan
  customer : Customer
  should_be_billed : Date → Bool

/-- A billing document (invoice or proforma): created in `draft` with no
charges; `charges` records, in order, the ids of the subscriptions whose
total value was added to it. -/
structure Document where
  id : Nat
  provider : Provider
  customer : Nat
  kind : Flow
  due_date : Date
  charges : List Nat
  state : DocState
deriving DecidableEq, Repr

/-- One observable side effect on a collaborator. -/
inductive Event where
  | createDoc (doc : Nat) (provider : Nat)
  | addCharge (sub : Nat) (doc : Nat) (billing_date : Date)
  | endSub (sub : Nat)
  | saveSub (sub : Nat)
  | issueDoc (doc : Nat)
  | saveDoc (doc : Nat)
deriving DecidableEq, Repr

/-- The document store plus the trace of collaborator calls made so far.
`nextId` is the id the store will give to the next created document. -/
structure GenState where
  docs : List Document
  nextId : Nat
  trace : List Event
deriving DecidableEq, Repr

/-- The state before any generation: empty store, empty trace. -/
def initState : GenState := ⟨[], 0, []⟩

/-- Append one collaborator call to the trace. -/
def emit (st : GenState) (e : Event) : GenState :=
  { st with trace := st.trace ++ [e] }

/-- `DocumentsGenerator._create_document`: instantiate the provider's
document model with `due_date = billing_date + timedelta(days =
customer.payment_due_days)`; the store persists it in `draft` state. -/
def create_document (st : GenState) (provider : Provider) (customer : Customer)
    (billing_date : Date) : Document × GenState :=
  let due_date := addDays billing_date customer.payment_due_days
  let document : Document :=
    ⟨st.nextId, provider, customer.id, provider.flow, due_date, [], DocState.draft⟩
  (document,
   { docs := st.docs ++ [document],
     nextId := st.nextId + 1,
     trace := st.trace ++ [Event.createDoc document.id provider.id] })

/-- `subscription.add_total_value_to_document(**args)`: append the
subscription's charge to the document with the given id. -/
def add_total_value_to_document (st : GenState) (s : Subscription) (docId : Nat)
    (billing_date : Date) : GenState :=
  { st with
    docs := st.docs.map (fun d =>
      if d.id == docId then { d with charges := d.charges ++ [s.id] } else d),
    trace := st.trace ++ [Event.addCharge s.id docId billing_date] }

/-- `document.issue()`: transition the document with the given id to `issued`. -/
def issue_document (st : GenState) (docId : Nat) : GenState :=
  { st with
    docs := st.docs.map (fun d =>
      if d.id == docId then { d with state := DocState.issued } else d),
    trace := st.trace ++ [Event.issueDoc docId] }

/-- `customer.subscriptions.filter(state__in=['active', 'canceled'])`. -/
def stateFilter (subs : List Subscription) : List Subscription :=
  subs.filter (fun s => s.state == "active" || s.state == "canceled")

/-- The body of the consolidated-path subscription loop: skip if not to be
billed; look the provider up in the per-customer cache, creating and caching
a document when absent; add the subscription's total value; end and save
the subscription when its state is `canceled`. -/
def processConsolidatedSub (customer : Customer) (billing_date : Date)
    (acc : GenState × List (Provider × Nat)) (subscription : Subscription) :
    GenState × List (Provider × Nat) :=
  if !subscription.should_be_billed billing_date then acc
  else
    let provider := subscription.plan.provider
    let (docId, st, cache) :=
      match acc.2.find? (fun e => e.1.id == provider.id) with
      | some e => (e.2, acc.1, acc.2)
      | none =>
        let (document, st) := create_document acc.1 provider customer billing_date
        (document.id, st, acc.2 ++ [(provider, document.id)])
    let st := add_total_value_to_document st subscription docId billing_date
    let st :=
      if subscription.state == "canceled" then
        emit (emit st (Event.endSub subscription.id)) (Event.saveSub subscription.id)
      else st
    (st, cache)

/-- The post-loop phase of the consolidated path: for each cached
(provider, document) pair, issue and save the document when the provider's
default document state is `issued`. -/
def issue_cached_documents (st : GenState) (cache : List (Provider × Nat)) : GenState :=
  cache.foldl (fun st e =>
    if e.1.default_document_state == DocState.issued then
      emit (issue_document st e.2) (Event.saveDoc e.2)
    else st) st

/-- `DocumentsGenerator._generate_for_user_with_consolidated_billing`. -/
def generate_for_user_with_consolidated_billing (st : GenState) (customer : Customer)
    (subs : List Subscription) (billing_date : Date) : GenState :=
  let r := (stateFilter subs).foldl (processConsolidatedSub customer billing_date) (st, [])
  issue_cached_documents r.1 r.2

/-- The body of the non-consolidated-path subscription loop: skip if not to
be billed; create a fresh document, add the charge, end and save the
subscription when canceled, then issue and save the document when the
provider's default document state is `issued`. -/
def processNonConsolidatedSub (customer : Customer) (billing_date : Date)
    (st : GenState) (subscription : Subscription) : GenState :=
  if !subscription.should_be_billed billing_date then st
  else
    let provider := subscription.plan.provider
    let (document, st) := create_document st provider customer billing_date
    let st := add_total_value_to_document st subscription document.id billing_date
    let st :=
      if subscription.state == "canceled" then
        emit (emit st (Event.endSub subscription.id)) (Event.saveSub subscription.id)
      else st
    if provider.default_document_state == DocState.issued then
      emit (issue_document st document.id) (Event.saveDoc document.id)
    else st

/-- `DocumentsGenerator._generate_for_user_without_consolidated_billing`. -/
def generate_for_user_without_consolidated_billing (st : GenState) (customer : Customer)
    (subs : List Subscription) (billing_date : Date) : GenState :=
  (stateFilter subs).foldl (processNonConsolidatedSub customer billing_date) st

/-- `DocumentsGenerator._generate_for_single_subscription_now`: no state
filter and no eligibility check; one fresh document dated `now`. -/
def generate_for_single_subscription_now (st : GenState) (subscription : Subscription)
    (now : Date) : GenState :=
  let provider := subscription.plan.provider
  let customer := subscription.customer
  let (document, st) := create_document st provider customer now
  let st := add_total_value_to_document st subscription document.id now
  let st :=
    if subscription.state == "canceled" then
      emit (emit st (Event.endSub subscription.id)) (Event.saveSub subscription.id)
    else st
  if provider.default_document_state == DocState.issued then
    emit (issue_document st document.id) (Event.saveDoc document.id)
  else st

/-- One customer of the store together with its subscriptions
(`customer.subscriptions`). -/
structure CustomerRecord where
  customer : Customer
  subscriptions : List Subscription

/-- `DocumentsGenerator._generate_all`: compute the billing date once
(first of the current month) and dispatch every customer to the
consolidated or non-consolidated path. -/
def generate_all (now : Date) (customers : List CustomerRecord) : GenState :=
  let billing_date := firstOfMonth now
  customers.foldl (fun st cr =>
    if cr.customer.consolidated_billing then
      generate_for_user_with_consolidated_billing st cr.customer cr.subscriptions billing_date
    else
      generate_for_user_without_consolidated_billing st cr.customer cr.subscriptions billing_date)
    initState

/-- `DocumentsGenerator.generate`: full run when no subscription is given,
single-subscription run otherwise. -/
def generate (now : Date) (customers : List CustomerRecord)
    (subscription : Option Subscription) : GenState :=
  match subscription with
  | none => generate_all now customers
  | some s => generate_for_single_subscription_now initState s now

/-! ### Closed-form descriptions of the generation loops (proof machinery) -/

/-- The subscriptions of a customer that are actually billed in a full run:
state in `{active, canceled}` and `should_be_billed billing_date`. -/
def eligibleSubs (bd : Date) (subs : List Subscription) : List Subscription :=
  (stateFilter subs).filter (fun s => s.should_be_billed bd)

/-- Ids of the to-be-billed subscriptions of `subs` whose provider has id
`pid`, in processing order. -/
def chargesFor (bd : Date) (pid : Nat) (subs : List Subscription) : List Nat :=
  (subs.filter (fun s => s.should_be_billed bd && s.plan.provider.id == pid)).map
    (fun s => s.id)

/-- The trace fragment of the termination check for one subscription. -/
def endEvents (s : Subscription) : List Event :=
  if s.state == "canceled" then [Event.endSub s.id, Event.saveSub s.id] else []

/-- The trace fragment of the issuance check for one document. -/
def issueEvents (p : Provider) (docId : Nat) : List Event :=
  if p.default_document_state == DocState.issued then
    [Event.issueDoc docId, Event.saveDoc docId]
  else []

/-- The documents the consolidated loop appends to the store, given the
provider ids already cached (`keys`) and the next document id. -/
def newDocsSpec (bd : Date) (c : Customer) : List Nat → Nat → List Subscription → List Document
  | _, _, [] => []
  | keys, nid, s :: rest =>
    if s.should_be_billed bd then
      if s.plan.provider.id ∈ keys then newDocsSpec bd c keys nid rest
      else
        ⟨nid, s.plan.provider, c.id, s.plan.provider.flow, addDays bd c.payment_due_days,
          s.id :: chargesFor bd s.plan.provider.id rest, DocState.draft⟩
          :: newDocsSpec bd c (s.plan.provider.id :: keys) (nid + 1) rest
    else newDocsSpec bd c keys nid rest

/-- Document id cached for a provider id, if any. -/
def lookupD (pc : List (Nat × Nat)) (q : Nat) : Option Nat :=
  (pc.find? (fun e => e.1 == q)).map (fun e => e.2)

/-- The trace fragment the consolidated subscription loop appends, given the
(provider id, document id) pairs already cached and the next document id. -/
def loopTraceSpec (bd : Date) : List (Nat × Nat) → Nat → List Subscription → List Event
  | _, _, [] => []
  | pc, nid, s :: rest =>
    if s.should_be_billed bd then
      match lookupD pc s.plan.provider.id with
      | some i => Event.addCharge s.id i bd :: (endEvents s ++ loopTraceSpec bd pc nid rest)
      | none =>
        Event.createDoc nid s.plan.provider.id :: Event.addCharge s.id nid bd ::
          (endEvents s ++ loopTraceSpec bd ((s.plan.provider.id, nid) :: pc) (nid + 1) rest)
    else loopTraceSpec bd pc nid rest

/-- How the consolidated loop updates a document that was already in the
store when the loop started: a document pointed to by the cache receives
the charges of the remaining to-be-billed subscriptions of its provider. -/
def updOld (bd : Date) (cache : List (Provider × Nat)) (subs : List Subscription)
    (d : Document) : Document :=
  match cache.find? (fun e => e.2 == d.id) with
  | some e => { d with charges := d.charges ++ chargesFor bd e.1.id subs }
  | none => d

/-- Well-formedness of a store/cache pair: stored document ids and cached
document ids are below `nextId`, and the cache is keyed injectively by
provider id and by document id. -/
def CacheInv (st : GenState) (cache : List (Provider × Nat)) : Prop :=
  (∀ d ∈ st.docs, d.id < st.nextId) ∧
  (∀ e ∈ cache, e.2 < st.nextId) ∧
  (cache.map (fun e => e.1.id)).Nodup ∧
  (cache.map (fun e => e.2)).Nodup

/-- How the post-loop issuance phase updates a document of the store. -/
def issueUpdate (cache : List (Provider × Nat)) (d : Document) : Document :=
  if cache.any (fun e => e.2 == d.id && e.1.default_document_state == DocState.issued) then
    { d with state := DocState.issued }
  else d

/-- The trace fragment of the post-loop issuance phase. -/
def issueTraceSpec : List (Provider × Nat) → List Event
  | [] => []
  | e :: rest => issueEvents e.1 e.2 ++ issueTraceSpec rest

/-- The documents the non-consolidated loop appends to the store. -/
def nonConsDocsSpec (bd : Date) (c : Customer) : Nat → List Subscription → List Document
  | _, [] => []
  | nid, s :: rest =>
    if s.should_be_billed bd then
      ⟨nid, s.plan.provider, c.id, s.plan.provider.flow, addDays bd c.payment_due_days,
        [s.id],
        if s.plan.provider.default_document_state == DocState.issued then DocState.issued
        else DocState.draft⟩ :: nonConsDocsSpec bd c (nid + 1) rest
    else nonConsDocsSpec bd c nid rest

/-- The trace fragment the non-consolidated loop appends. -/
def nonConsTraceSpec (bd : Date) : Nat → List Subscription → List Event
  | _, [] => []
  | nid, s :: rest =>
    if s.should_be_billed bd then
      Event.createDoc nid s.plan.provider.id :: Event.addCharge s.id nid bd ::
        (endEvents s ++ issueEvents s.plan.provider nid ++ nonConsTraceSpec bd (nid + 1) rest)
    else nonConsTraceSpec bd nid rest

/-! ### Step equations and basic lemmas -/

theorem chargesFor_cons_pos {bd : Date} {s : Subscription} {pid : Nat}
    (h : s.should_be_billed bd = true) (hp : s.plan.provider.id = pid)
    (rest : List Subscription) :
    chargesFor bd pid (s :: rest) = s.id :: chargesFor bd pid rest := by
  simp [chargesFor, List.filter_cons, h, hp]

theorem chargesFor_cons_neg {bd : Date} {s : Subscription} {pid : Nat}
    (h : s.should_be_billed bd = false ∨ s.plan.provider.id ≠ pid)
    (rest : List Subscription) :
    chargesFor bd pid (s :: rest) = chargesFor bd pid rest := by
  rcases h with h | h <;> simp [chargesFor, List.filter_cons, h]

theorem map_guard_id {docId : Nat} {f : Document → Document} {l : List Document}
    (h : ∀ d ∈ l, d.id ≠ docId) :
    l.map (fun d => if d.id == docId then f d else d) = l :=
  (List.map_congr_left (fun d hd => by simp [h d hd])).trans (List.map_id l)

theorem processConsolidatedSub_skip {c : Customer} {bd : Date} {st : GenState}
    {cache : List (Provider × Nat)} {s : Subscription}
    (h : s.should_be_billed bd = false) :
    processConsolidatedSub c bd (st, cache) s = (st, cache) := by
  simp [processConsolidatedSub, h]

theorem processConsolidatedSub_cached {c : Customer} {bd : Date} {st : GenState}
    {cache : List (Provider × Nat)} {s : Subscription} {e0 : Provider × Nat}
    (h : s.should_be_billed bd = true)
    (hf : cache.find? (fun e => e.1.id == s.plan.provider.id) = some e0) :
    processConsolidatedSub c bd (st, cache) s =
      (⟨st.docs.map (fun d => if d.id == e0.2 then { d with charges := d.charges ++ [s.id] } else d),
        st.nextId,
        st.trace ++ Event.addCharge s.id e0.2 bd :: endEvents s⟩,
       cache) := by
  cases hc : s.state == "canceled" <;>
    simp [processConsolidatedSub, h, hf, add_total_value_to_document, emit, endEvents, hc]

theorem processConsolidatedSub_new {c : Customer} {bd : Date} {st : GenState}
    {cache : List (Provider × Nat)} {s : Subscription}
    (h : s.should_be_billed bd = true)
    (hf : cache.find? (fun e => e.1.id == s.plan.provider.id) = none) :
    processConsolidatedSub c bd (st, cache) s =
      (⟨st.docs.map
          (fun d => if d.id == st.nextId then { d with charges := d.charges ++ [s.id] } else d)
          ++ [{ id := st.nextId, provider := s.plan.provider, customer := c.id,
                kind := s.plan.provider.flow, due_date := addDays bd c.payment_due_days,
                charges := [s.id], state := DocState.draft }],
        st.nextId + 1,
        st.trace ++ Event.createDoc st.nextId s.plan.provider.id ::
          Event.addCharge s.id st.nextId bd :: endEvents s⟩,
       cache ++ [(s.plan.provider, st.nextId)]) := by
  cases hc : s.state == "canceled" <;>
    simp [processConsolidatedSub, h, hf, create_document, add_total_value_to_document, emit,
      endEvents, hc]

theorem issueUpdate_nil (d : Document) : issueUpdate [] d = d := by
  simp [issueUpdate]

theorem issueUpdate_step {e : Provider × Nat} {rest : List (Provider × Nat)}
    (hi : e.1.default_document_state = DocState.issued) (d : Document) :
    issueUpdate rest (if d.id == e.2 then { d with state := DocState.issued } else d) =
      issueUpdate (e :: rest) d := by
  by_cases hb : d.id = e.2
  · have h1 : (if d.id == e.2 then { d with state := DocState.issued } else d)
        = { d with state := DocState.issued } := by simp [hb]
    have h2 : issueUpdate (e :: rest) d = { d with state := DocState.issued } := by
      simp [issueUpdate, List.any_cons, hb, hi]
    rw [h1, h2]
    unfold issueUpdate
    cases d
    split <;> simp
  · have h1 : (if d.id == e.2 then { d with state := DocState.issued } else d) = d := by
      simp [hb]
    have h2 : (e.2 == d.id && (e.1.default_document_state == DocState.issued)) = false := by
      have : e.2 ≠ d.id := fun hn => hb hn.symm
      simp [this]
    rw [h1]
    unfold issueUpdate
    simp only [List.any_cons, h2, Bool.false_or]

theorem issueUpdate_step_skip {e : Provider × Nat} {rest : List (Provider × Nat)}
    (hi : ¬ e.1.default_document_state = DocState.issued) (d : Document) :
    issueUpdate rest d = issueUpdate (e :: rest) d := by
  have h2 : (e.2 == d.id && (e.1.default_document_state == DocState.issued)) = false := by
    simp [hi]
  unfold issueUpdate
  simp only [List.any_cons, h2, Bool.false_or]

theorem issue_cached_documents_eq :
    ∀ (cache : List (Provider × Nat)) (st : GenState),
    issue_cached_documents st cache =
      ⟨st.docs.map (issueUpdate cache), st.nextId, st.trace ++ issueTraceSpec cache⟩
  | [], st => by
    simp only [issue_cached_documents, List.foldl_nil, issueTraceSpec, List.append_nil]
    rw [List.map_congr_left (fun d _ => issueUpdate_nil d), List.map_id']
  | e :: rest, st => by
    have hstep : issue_cached_documents st (e :: rest) =
        issue_cached_documents
          (if e.1.default_document_state == DocState.issued then
            emit (issue_document st e.2) (Event.saveDoc e.2)
          else st) rest := rfl
    rw [hstep]
    by_cases hi : e.1.default_document_state = DocState.issued
    · rw [if_pos (by simp [hi]), issue_cached_documents_eq rest]
      simp only [emit, issue_document, GenState.mk.injEq]
      refine ⟨?_, trivial, ?_⟩
      · rw [List.map_map]
        exact List.map_congr_left (fun d _ => issueUpdate_step hi d)
      · simp [issueTraceSpec, issueEvents, hi]
    · rw [if_neg (by simp [hi]), issue_cached_documents_eq rest]
      simp only [GenState.mk.injEq]
      refine ⟨?_, trivial, ?_⟩
      · exact List.map_congr_left (fun d _ => issueUpdate_step_skip hi d)
      · simp [issueTraceSpec, issueEvents, hi]

theorem updOld_nil (bd : Date) (cache : List (Provider × Nat)) (d : Document) :
    updOld bd cache [] d = d := by
  unfold updOld
  cases hfd : cache.find? (fun e => e.2 == d.id) with
  | none => rfl
  | some e1 => simp [chargesFor]

theorem updOld_skip {bd : Date} {s : Subscription} (cache : List (Provider × Nat))
    (rest : List Subscription) (h : s.should_be_billed bd = false) (d : Document) :
    updOld bd cache rest d = updOld bd cache (s :: rest) d := by
  unfold updOld
  cases hfd : cache.find? (fun e => e.2 == d.id) with
  | none => rfl
  | some e1 => simp only [chargesFor_cons_neg (Or.inl h)]

theorem find?_val_eq_self {cache : List (Provider × Nat)} {e0 : Provider × Nat}
    (hnd : (cache.map (fun e => e.2)).Nodup) (hmem : e0 ∈ cache) :
    cache.find? (fun e => e.2 == e0.2) = some e0 := by
  induction cache with
  | nil => cases hmem
  | cons a rest ih =>
    rcases List.mem_cons.mp hmem with rfl | hmem
    · simp [List.find?_cons]
    · have hna : a.2 ∉ rest.map (fun e => e.2) := (List.nodup_cons.mp hnd).1
      have hne : (a.2 == e0.2) = false := by
        simp only [beq_eq_false_iff_ne, ne_eq]
        intro h
        exact hna (h ▸ List.mem_map_of_mem (fun e => e.2) hmem)
      simp only [List.find?_cons, hne]
      exact ih (List.nodup_cons.mp hnd).2 hmem

theorem updOld_cached_hit {bd : Date} {cache : List (Provider × Nat)} {s : Subscription}
    {e0 : Provider × Nat} (rest : List Subscription)
    (hs : s.should_be_billed bd = true)
    (hf : cache.find? (fun e => e.1.id == s.plan.provider.id) = some e0)
    (hndp : (cache.map (fun e => e.1.id)).Nodup)
    (hndv : (cache.map (fun e => e.2)).Nodup)
    (d : Document) :
    updOld bd cache rest (if d.id == e0.2 then { d with charges := d.charges ++ [s.id] } else d)
      = updOld bd cache (s :: rest) d := by
  have he0mem : e0 ∈ cache := List.mem_of_find?_eq_some hf
  have he0pid : e0.1.id = s.plan.provider.id := by
    have := List.find?_some hf
    simpa using this
  by_cases hb : d.id = e0.2
  · rw [if_pos (by simp [hb])]
    have hfd : cache.find? (fun e => e.2 == d.id) = some e0 := by
      rw [hb]
      exact find?_val_eq_self hndv he0mem
    have hfd' : cache.find?
        (fun e => e.2 == ({ d with charges := d.charges ++ [s.id] } : Document).id) = some e0 :=
      hfd
    simp only [updOld, hfd, hfd']
    simp only [chargesFor_cons_pos hs he0pid.symm]
    simp
  · rw [if_neg (by simp [hb])]
    unfold updOld
    cases hfd : cache.find? (fun e => e.2 == d.id) with
    | none => rfl
    | some e1 =>
      have he1mem : e1 ∈ cache := List.mem_of_find?_eq_some hfd
      have he1val : e1.2 = d.id := by
        have := List.find?_some hfd
        simpa using this
      have hne : s.plan.provider.id ≠ e1.1.id := by
        intro h
        have he10 : e1 = e0 :=
          List.inj_on_of_nodup_map hndp he1mem he0mem (h.symm.trans he0pid.symm)
        apply hb
        rw [← he1val, he10]
      simp only [chargesFor_cons_neg (Or.inr hne)]

theorem fresh_map_charge {l : List Document} {i sid n : Nat}
    (h : ∀ d ∈ l, d.id < n) :
    ∀ d ∈ l.map (fun d => if d.id == i then { d with charges := d.charges ++ [sid] } else d),
      d.id < n := by
  intro d hd
  obtain ⟨d0, hd0, rfl⟩ := List.mem_map.mp hd
  by_cases hb : d0.id = i
  · simpa [hb] using h d0 hd0
  · simpa [hb] using h d0 hd0

theorem updOld_new_old {bd : Date} {cache : List (Provider × Nat)} {s : Subscription}
    (rest : List Subscription) {nid : Nat}
    (hf : cache.find? (fun e => e.1.id == s.plan.provider.id) = none)
    (d : Document) (hd : d.id ≠ nid) :
    updOld bd (cache ++ [(s.plan.provider, nid)]) rest d = updOld bd cache (s :: rest) d := by
  unfold updOld
  rw [List.find?_append]
  have h2 : List.find? (fun e => e.2 == d.id) [(s.plan.provider, nid)] = none := by
    simp [Ne.symm hd]
  rw [h2]
  cases hfd : cache.find? (fun e => e.2 == d.id) with
  | none => rfl
  | some e1 =>
    have he1mem : e1 ∈ cache := List.mem_of_find?_eq_some hfd
    have hne : s.plan.provider.id ≠ e1.1.id := by
      intro h
      have := List.find?_eq_none.mp hf e1 he1mem
      simp [h] at this
    simp only [Option.or_some, chargesFor_cons_neg (Or.inr hne)]

theorem updOld_new_doc {bd : Date} {cache : List (Provider × Nat)} {s : Subscription}
    (rest : List Subscription) {nid : Nat} {cid : Nat} {k : Flow} {dd : Date}
    (hval : ∀ e ∈ cache, e.2 < nid) :
    updOld bd (cache ++ [(s.plan.provider, nid)]) rest
        ({ id := nid, provider := s.plan.provider, customer := cid, kind := k,
           due_date := dd, charges := [s.id], state := DocState.draft } : Document)
      = { id := nid, provider := s.plan.provider, customer := cid, kind := k,
          due_date := dd, charges := s.id :: chargesFor bd s.plan.provider.id rest,
          state := DocState.draft } := by
  unfold updOld
  rw [List.find?_append]
  have h1 : List.find? (fun e =>
      e.2 == ({ id := nid, provider := s.plan.provider, customer := cid, kind := k,
                due_date := dd, charges := [s.id], state := DocState.draft } : Document).id) cache
      = none := by
    apply List.find?_eq_none.mpr
    intro e he
    simpa using Nat.ne_of_lt (hval e he)
  rw [h1]
  simp

theorem lookupD_cons (a b q : Nat) (pc : List (Nat × Nat)) :
    lookupD ((a, b) :: pc) q = if a == q then some b else lookupD pc q := by
  unfold lookupD
  cases h : (a == q) <;> simp [List.find?_cons, h]

theorem lookupD_append_single (pc : List (Nat × Nat)) (p i : Nat)
    (hp : lookupD pc p = none) (q : Nat) :
    lookupD (pc ++ [(p, i)]) q = lookupD ((p, i) :: pc) q := by
  have hpf : pc.find? (fun e => e.1 == p) = none := by
    unfold lookupD at hp
    cases h : pc.find? (fun e => e.1 == p) with
    | none => rfl
    | some e => rw [h] at hp; cases hp
  rw [lookupD_cons]
  unfold lookupD
  rw [List.find?_append]
  by_cases hq : p = q
  · subst hq
    rw [hpf]
    simp
  · have hne : ((p, i).1 == q) = false := by simpa using hq
    cases hfd : pc.find? (fun e => e.1 == q) with
    | none => simp [hne]
    | some e => simp [hne]

theorem newDocsSpec_keys_congr (bd : Date) (c : Customer) :
    ∀ (subs : List Subscription) (keys1 keys2 : List Nat) (nid : Nat),
    (∀ x, x ∈ keys1 ↔ x ∈ keys2) →
    newDocsSpec bd c keys1 nid subs = newDocsSpec bd c keys2 nid subs
  | [], _, _, _, _ => rfl
  | s :: rest, keys1, keys2, nid, h => by
    simp only [newDocsSpec]
    cases hs : s.should_be_billed bd with
    | false => simpa [hs] using newDocsSpec_keys_congr bd c rest keys1 keys2 nid h
    | true =>
      by_cases hk : s.plan.provider.id ∈ keys1
      · rw [if_pos rfl, if_pos rfl, if_pos hk, if_pos ((h _).mp hk)]
        exact newDocsSpec_keys_congr bd c rest keys1 keys2 nid h
      · rw [if_pos rfl, if_pos rfl, if_neg hk, if_neg (fun hx => hk ((h _).mpr hx))]
        refine congrArg _ ?_
        refine newDocsSpec_keys_congr bd c rest _ _ _ (fun x => ?_)
        constructor
        · intro hx
          rcases List.mem_cons.mp hx with rfl | hx
          · exact List.mem_cons_self _ _
          · exact List.mem_cons_of_mem _ ((h x).mp hx)
        · intro hx
          rcases List.mem_cons.mp hx with rfl | hx
          · exact List.mem_cons_self _ _
          · exact List.mem_cons_of_mem _ ((h x).mpr hx)

theorem loopTraceSpec_lookup_congr (bd : Date) :
    ∀ (subs : List Subscription) (pc1 pc2 : List (Nat × Nat)) (nid : Nat),
    (∀ q, lookupD pc1 q = lookupD pc2 q) →
    loopTraceSpec bd pc1 nid subs = loopTraceSpec bd pc2 nid subs
  | [], _, _, _, _ => rfl
  | s :: rest, pc1, pc2, nid, h => by
    simp only [loopTraceSpec]
    cases hs : s.should_be_billed bd with
    | false => simpa [hs] using loopTraceSpec_lookup_congr bd rest pc1 pc2 nid h
    | true =>
      rw [if_pos rfl, if_pos rfl, h s.plan.provider.id]
      cases hl : lookupD pc2 s.plan.provider.id with
      | some i =>
        refine congrArg _ (congrArg _ ?_)
        exact loopTraceSpec_lookup_congr bd rest pc1 pc2 nid h
      | none =>
        refine congrArg _ (congrArg _ (congrArg _ ?_))
        refine loopTraceSpec_lookup_congr bd rest _ _ _ (fun q => ?_)
        rw [lookupD_cons, lookupD_cons]
        cases hq : (s.plan.provider.id == q) with
        | true => rfl
        | false => simpa using h q

theorem lookupD_map_cache (cache : List (Provider × Nat)) (q : Nat) :
    lookupD (cache.map (fun e => (e.1.id, e.2))) q
      = (cache.find? (fun e => e.1.id == q)).map (fun e => e.2) := by
  induction cache with
  | nil => rfl
  | cons a rest ih =>
    rw [List.map_cons]
    unfold lookupD at ih ⊢
    cases h : (a.1.id == q) with
    | false =>
      simp only [List.find?_cons, h]
      exact ih
    | true =>
      simp only [List.find?_cons, h]
      rfl

theorem consolidated_loop_eq (c : Customer) (bd : Date) :
    ∀ (subs : List Subscription) (st : GenState) (cache : List (Provider × Nat)),
    CacheInv st cache →
    subs.foldl (processConsolidatedSub c bd) (st, cache) =
      (⟨st.docs.map (updOld bd cache subs)
          ++ newDocsSpec bd c (cache.map (fun e => e.1.id)) st.nextId subs,
        st.nextId + (newDocsSpec bd c (cache.map (fun e => e.1.id)) st.nextId subs).length,
        st.trace ++ loopTraceSpec bd (cache.map (fun e => (e.1.id, e.2))) st.nextId subs⟩,
       cache ++ (newDocsSpec bd c (cache.map (fun e => e.1.id)) st.nextId subs).map
          (fun d => (d.provider, d.id)))
  | [], st, cache, _ => by
    simp only [List.foldl_nil, newDocsSpec, loopTraceSpec, List.append_nil, List.length_nil,
      Nat.add_zero, List.map_nil]
    rw [List.map_congr_left (fun d _ => updOld_nil bd cache d), List.map_id']
  | s :: rest, st, cache, hinv => by
    obtain ⟨hfresh, hcval, hndp, hndv⟩ := hinv
    rw [List.foldl_cons]
    rcases (Bool.eq_false_or_eq_true (s.should_be_billed bd)).symm with hs | hs
    · rw [processConsolidatedSub_skip hs,
        consolidated_loop_eq c bd rest st cache ⟨hfresh, hcval, hndp, hndv⟩]
      have hnew : newDocsSpec bd c (cache.map (fun e => e.1.id)) st.nextId (s :: rest)
          = newDocsSpec bd c (cache.map (fun e => e.1.id)) st.nextId rest := by
        simp [newDocsSpec, hs]
      have htr : loopTraceSpec bd (cache.map (fun e => (e.1.id, e.2))) st.nextId (s :: rest)
          = loopTraceSpec bd (cache.map (fun e => (e.1.id, e.2))) st.nextId rest := by
        simp [loopTraceSpec, hs]
      rw [hnew, htr, List.map_congr_left (fun d _ => updOld_skip cache rest hs d)]
    · cases hfind : cache.find? (fun e => e.1.id == s.plan.provider.id) with
      | some e0 =>
        rw [processConsolidatedSub_cached hs hfind]
        have hrec := consolidated_loop_eq c bd rest
          (⟨st.docs.map (fun d =>
              if d.id == e0.2 then { d with charges := d.charges ++ [s.id] } else d),
            st.nextId, st.trace ++ Event.addCharge s.id e0.2 bd :: endEvents s⟩ : GenState)
          cache ⟨fresh_map_charge hfresh, hcval, hndp, hndv⟩
        rw [hrec]
        dsimp only
        have hkeys : s.plan.provider.id ∈ cache.map (fun e => e.1.id) := by
          have he0pid : e0.1.id = s.plan.provider.id := by
            simpa using List.find?_some hfind
          exact he0pid ▸ List.mem_map_of_mem _ (List.mem_of_find?_eq_some hfind)
        have hlook : lookupD (cache.map (fun e => (e.1.id, e.2))) s.plan.provider.id
            = some e0.2 := by
          rw [lookupD_map_cache, hfind]
          rfl
        have hdocs : (st.docs.map (fun d =>
              if d.id == e0.2 then { d with charges := d.charges ++ [s.id] } else d)).map
              (updOld bd cache rest)
            = st.docs.map (updOld bd cache (s :: rest)) := by
          rw [List.map_map]
          exact List.map_congr_left (fun d _ => updOld_cached_hit rest hs hfind hndp hndv d)
        have hnew : newDocsSpec bd c (cache.map (fun e => e.1.id)) st.nextId (s :: rest)
            = newDocsSpec bd c (cache.map (fun e => e.1.id)) st.nextId rest := by
          simp [newDocsSpec, hs, hkeys]
        have htr : loopTraceSpec bd (cache.map (fun e => (e.1.id, e.2))) st.nextId (s :: rest)
            = Event.addCharge s.id e0.2 bd ::
              (endEvents s ++
                loopTraceSpec bd (cache.map (fun e => (e.1.id, e.2))) st.nextId rest) := by
          simp [loopTraceSpec, hs, hlook]
        rw [hdocs, hnew, htr]
        simp [List.append_assoc]
      | none =>
        rw [processConsolidatedSub_new hs hfind]
        rw [map_guard_id (fun d hd => Nat.ne_of_lt (hfresh d hd))]
        have hpid_not : s.plan.provider.id ∉ cache.map (fun e => e.1.id) := by
          intro hmem
          obtain ⟨e1, he1, he1id⟩ := List.mem_map.mp hmem
          have := List.find?_eq_none.mp hfind e1 he1
          simp [he1id] at this
        have hval_not : st.nextId ∉ cache.map (fun e => e.2) := by
          intro hmem
          obtain ⟨e1, he1, he1id⟩ := List.mem_map.mp hmem
          exact absurd he1id (Nat.ne_of_lt (hcval e1 he1))
        have hinv1 : CacheInv
            ⟨st.docs ++ [{ id := st.nextId, provider := s.plan.provider, customer := c.id,
                           kind := s.plan.provider.flow,
                           due_date := addDays bd c.payment_due_days,
                           charges := [s.id], state := DocState.draft }],
              st.nextId + 1,
              st.trace ++ Event.createDoc st.nextId s.plan.provider.id ::
                Event.addCharge s.id st.nextId bd :: endEvents s⟩
            (cache ++ [(s.plan.provider, st.nextId)]) := by
          refine ⟨?_, ?_, ?_, ?_⟩
          · intro d hd
            rcases List.mem_append.mp hd with hd | hd
            · exact Nat.lt_succ_of_lt (hfresh d hd)
            · rw [List.mem_singleton.mp hd]
              exact Nat.lt_succ_self _
          · intro e he
            rcases List.mem_append.mp he with he | he
            · exact Nat.lt_succ_of_lt (hcval e he)
            · rw [List.mem_singleton.mp he]
              exact Nat.lt_succ_self _
          · rw [List.map_append, List.nodup_append]
            refine ⟨hndp, List.nodup_singleton _, ?_⟩
            intro a ha hb
            have hb' : a = s.plan.provider.id := by simpa using hb
            rw [hb'] at ha
            exact hpid_not ha
          · rw [List.map_append, List.nodup_append]
            refine ⟨hndv, List.nodup_singleton _, ?_⟩
            intro a ha hb
            have hb' : a = st.nextId := by simpa using hb
            rw [hb'] at ha
            exact hval_not ha
        rw [consolidated_loop_eq c bd rest _ _ hinv1]
        dsimp only
        have hlooknone : lookupD (cache.map (fun e => (e.1.id, e.2))) s.plan.provider.id
            = none := by
          rw [lookupD_map_cache, hfind]
          rfl
        have hdocs : (st.docs ++ [({ id := st.nextId, provider := s.plan.provider,
                                     customer := c.id, kind := s.plan.provider.flow,
                                     due_date := addDays bd c.payment_due_days,
                                     charges := [s.id],
                                     state := DocState.draft } : Document)]).map
              (updOld bd (cache ++ [(s.plan.provider, st.nextId)]) rest)
            = st.docs.map (updOld bd cache (s :: rest))
              ++ [{ id := st.nextId, provider := s.plan.provider, customer := c.id,
                    kind := s.plan.provider.flow, due_date := addDays bd c.payment_due_days,
                    charges := s.id :: chargesFor bd s.plan.provider.id rest,
                    state := DocState.draft }] := by
          rw [List.map_append]
          refine congrArg₂ _ ?_ ?_
          · exact List.map_congr_left
              (fun d hd => updOld_new_old rest hfind d (Nat.ne_of_lt (hfresh d hd)))
          · rw [List.map_singleton, updOld_new_doc rest hcval]
        have hnew : newDocsSpec bd c (cache.map (fun e => e.1.id)) st.nextId (s :: rest)
            = ({ id := st.nextId, provider := s.plan.provider, customer := c.id,
                 kind := s.plan.provider.flow, due_date := addDays bd c.payment_due_days,
                 charges := s.id :: chargesFor bd s.plan.provider.id rest,
                 state := DocState.draft } : Document)
              :: newDocsSpec bd c (s.plan.provider.id :: cache.map (fun e => e.1.id))
                  (st.nextId + 1) rest := by
          simp [newDocsSpec, hs, hpid_not]
        have hkeyscongr : newDocsSpec bd c ((cache ++ [(s.plan.provider, st.nextId)]).map
              (fun e => e.1.id)) (st.nextId + 1) rest
            = newDocsSpec bd c (s.plan.provider.id :: cache.map (fun e => e.1.id))
                (st.nextId + 1) rest := by
          rw [List.map_append]
          exact newDocsSpec_keys_congr bd c rest _ _ _ (fun x => by simp [or_comm])
        have htrcongr : loopTraceSpec bd ((cache ++ [(s.plan.provider, st.nextId)]).map
              (fun e => (e.1.id, e.2))) (st.nextId + 1) rest
            = loopTraceSpec bd ((s.plan.provider.id, st.nextId)
                :: cache.map (fun e => (e.1.id, e.2))) (st.nextId + 1) rest := by
          rw [List.map_append]
          exact loopTraceSpec_lookup_congr bd rest _ _ _
            (lookupD_append_single _ _ _ hlooknone)
        have htr : loopTraceSpec bd (cache.map (fun e => (e.1.id, e.2))) st.nextId (s :: rest)
            = Event.createDoc st.nextId s.plan.provider.id ::
              Event.addCharge s.id st.nextId bd ::
              (endEvents s ++ loopTraceSpec bd ((s.plan.provider.id, st.nextId)
                :: cache.map (fun e => (e.1.id, e.2))) (st.nextId + 1) rest) := by
          simp [loopTraceSpec, hs, hlooknone]
        rw [hdocs, hnew, hkeyscongr, htrcongr, htr]
        simp [List.append_assoc, Nat.add_assoc, Nat.add_comm 1]

theorem noncons_step_eq {c : Customer} {bd : Date} {st : GenState} {s : Subscription}
    (hs : s.should_be_billed bd = true)
    (hfresh : ∀ d ∈ st.docs, d.id < st.nextId) :
    processNonConsolidatedSub c bd st s =
      ⟨st.docs ++ [{ id := st.nextId, provider := s.plan.provider, customer := c.id,
                     kind := s.plan.provider.flow,
                     due_date := addDays bd c.payment_due_days,
                     charges := [s.id],
                     state := if s.plan.provider.default_document_state == DocState.issued
                       then DocState.issued else DocState.draft }],
        st.nextId + 1,
        st.trace ++ Event.createDoc st.nextId s.plan.provider.id ::
          Event.addCharge s.id st.nextId bd ::
          (endEvents s ++ issueEvents s.plan.provider st.nextId)⟩ := by
  have hmap1 : st.docs.map (fun d =>
      if d.id == st.nextId then { d with charges := d.charges ++ [s.id] } else d) = st.docs :=
    map_guard_id (fun d hd => Nat.ne_of_lt (hfresh d hd))
  have hmap2 : st.docs.map (fun d =>
      if d.id == st.nextId then { d with state := DocState.issued } else d) = st.docs :=
    map_guard_id (fun d hd => Nat.ne_of_lt (hfresh d hd))
  simp only [beq_iff_eq] at hmap1 hmap2
  cases hc : s.state == "canceled" <;>
    cases hi : s.plan.provider.default_document_state == DocState.issued <;>
      simp [processNonConsolidatedSub, hs, hc, hi, create_document,
        add_total_value_to_document, issue_document, emit, endEvents, issueEvents,
        hmap1, hmap2]

theorem noncons_loop_eq (c : Customer) (bd : Date) :
    ∀ (subs : List Subscription) (st : GenState),
    (∀ d ∈ st.docs, d.id < st.nextId) →
    subs.foldl (processNonConsolidatedSub c bd) st =
      ⟨st.docs ++ nonConsDocsSpec bd c st.nextId subs,
       st.nextId + (nonConsDocsSpec bd c st.nextId subs).length,
       st.trace ++ nonConsTraceSpec bd st.nextId subs⟩
  | [], st, _ => by
    simp [nonConsDocsSpec, nonConsTraceSpec]
  | s :: rest, st, hfresh => by
    rw [List.foldl_cons]
    rcases (Bool.eq_false_or_eq_true (s.should_be_billed bd)).symm with hs | hs
    · have hstep : processNonConsolidatedSub c bd st s = st := by
        simp [processNonConsolidatedSub, hs]
      rw [hstep, noncons_loop_eq c bd rest st hfresh]
      simp [nonConsDocsSpec, nonConsTraceSpec, hs]
    · rw [noncons_step_eq hs hfresh]
      have hfresh1 : ∀ d ∈ st.docs ++ [({ id := st.nextId, provider := s.plan.provider,
                                           customer := c.id, kind := s.plan.provider.flow,
                                           due_date := addDays bd c.payment_due_days,
                                           charges := [s.id],
                                           state :=
                                             if s.plan.provider.default_document_state ==
                                                 DocState.issued
                                             then DocState.issued
                                             else DocState.draft } : Document)],
          d.id < st.nextId + 1 := by
        intro d hd
        rcases List.mem_append.mp hd with hd | hd
        · exact Nat.lt_succ_of_lt (hfresh d hd)
        · rw [List.mem_singleton.mp hd]
          exact Nat.lt_succ_self _
      rw [noncons_loop_eq c bd rest _ hfresh1]
      dsimp only
      have hnd : nonConsDocsSpec bd c st.nextId (s :: rest)
          = ({ id := st.nextId, provider := s.plan.provider, customer := c.id,
               kind := s.plan.provider.flow,
               due_date := addDays bd c.payment_due_days,
               charges := [s.id],
               state := if s.plan.provider.default_document_state == DocState.issued
                 then DocState.issued else DocState.draft } : Document)
            :: nonConsDocsSpec bd c (st.nextId + 1) rest := by
        simp [nonConsDocsSpec, hs]
      have hnt : nonConsTraceSpec bd st.nextId (s :: rest)
          = Event.createDoc st.nextId s.plan.provider.id ::
            Event.addCharge s.id st.nextId bd ::
            (endEvents s ++ issueEvents s.plan.provider st.nextId
              ++ nonConsTraceSpec bd (st.nextId + 1) rest) := by
        simp [nonConsTraceSpec, hs]
      rw [hnd, hnt]
      simp only [GenState.mk.injEq]
      refine ⟨?_, ?_, ?_⟩
      · simp
      · simp [List.length_cons]
        omega
      · simp

theorem updOld_nil_cache (bd : Date) (subs : List Subscription) (d : Document) :
    updOld bd [] subs d = d := rfl

theorem newDocsSpec_id_lb (bd : Date) (c : Customer) :
    ∀ (subs : List Subscription) (keys : List Nat) (nid : Nat),
    ∀ d ∈ newDocsSpec bd c keys nid subs, nid ≤ d.id
  | [], _, _ => by simp [newDocsSpec]
  | s :: rest, keys, nid => by
    intro d hd
    simp only [newDocsSpec] at hd
    split at hd
    · split at hd
      · exact newDocsSpec_id_lb bd c rest keys nid d hd
      · rcases List.mem_cons.mp hd with rfl | hd
        · simp
        · exact Nat.le_of_succ_le (newDocsSpec_id_lb bd c rest _ _ d hd)
    · exact newDocsSpec_id_lb bd c rest keys nid d hd

theorem issueUpdate_not_mem {cache : List (Provider × Nat)} {d : Document}
    (h : ∀ e ∈ cache, e.2 ≠ d.id) : issueUpdate cache d = d := by
  unfold issueUpdate
  have hany : cache.any
      (fun e => e.2 == d.id && e.1.default_document_state == DocState.issued) = false := by
    rw [List.any_eq_false]
    intro e he
    simp [h e he]
  rw [hany]
  simp

theorem generate_consolidated_eq (st : GenState) (c : Customer) (subs : List Subscription)
    (bd : Date) (hfresh : ∀ d ∈ st.docs, d.id < st.nextId) :
    generate_for_user_with_consolidated_billing st c subs bd =
      ⟨st.docs ++ (newDocsSpec bd c [] st.nextId (stateFilter subs)).map
          (issueUpdate ((newDocsSpec bd c [] st.nextId (stateFilter subs)).map
            (fun d => (d.provider, d.id)))),
        st.nextId + (newDocsSpec bd c [] st.nextId (stateFilter subs)).length,
        st.trace ++ (loopTraceSpec bd [] st.nextId (stateFilter subs)
          ++ issueTraceSpec ((newDocsSpec bd c [] st.nextId (stateFilter subs)).map
            (fun d => (d.provider, d.id))))⟩ := by
  unfold generate_for_user_with_consolidated_billing
  rw [consolidated_loop_eq c bd (stateFilter subs) st []
    ⟨hfresh, by simp, by simp, by simp⟩]
  dsimp only
  rw [issue_cached_documents_eq]
  dsimp only
  simp only [List.map_nil, List.nil_append]
  have hold : ∀ d ∈ st.docs,
      issueUpdate ((newDocsSpec bd c [] st.nextId (stateFilter subs)).map
        (fun d0 => (d0.provider, d0.id))) d = d := by
    intro d hd
    apply issueUpdate_not_mem
    intro e he
    obtain ⟨d0, hd0, rfl⟩ := List.mem_map.mp he
    have h1 := newDocsSpec_id_lb bd c (stateFilter subs) [] st.nextId d0 hd0
    have h2 := hfresh d hd
    dsimp only
    omega
  simp only [GenState.mk.injEq]
  refine ⟨?_, trivial, ?_⟩
  · rw [List.map_congr_left (fun d _ => updOld_nil_cache bd _ d), List.map_id',
      List.map_append]
    refine congrArg₂ _ ?_ rfl
    rw [List.map_congr_left hold, List.map_id']
  · simp

theorem generate_noncons_eq (st : GenState) (c : Customer) (subs : List Subscription)
    (bd : Date) (hfresh : ∀ d ∈ st.docs, d.id < st.nextId) :
    generate_for_user_without_consolidated_billing st c subs bd =
      ⟨st.docs ++ nonConsDocsSpec bd c st.nextId (stateFilter subs),
       st.nextId + (nonConsDocsSpec bd c st.nextId (stateFilter subs)).length,
       st.trace ++ nonConsTraceSpec bd st.nextId (stateFilter subs)⟩ := by
  unfold generate_for_user_without_consolidated_billing
  exact noncons_loop_eq c bd (stateFilter subs) st hfresh

theorem generate_single_eq (st : GenState) (s : Subscription) (now : Date)
    (hfresh : ∀ d ∈ st.docs, d.id < st.nextId) :
    generate_for_single_subscription_now st s now =
      ⟨st.docs ++ [{ id := st.nextId, provider := s.plan.provider, customer := s.customer.id,
                     kind := s.plan.provider.flow,
                     due_date := addDays now s.customer.payment_due_days,
                     charges := [s.id],
                     state := if s.plan.provider.default_document_state == DocState.issued
                       then DocState.issued else DocState.draft }],
        st.nextId + 1,
        st.trace ++ Event.createDoc st.nextId s.plan.provider.id ::
          Event.addCharge s.id st.nextId now ::
          (endEvents s ++ issueEvents s.plan.provider st.nextId)⟩ := by
  have hmap1 : st.docs.map (fun d =>
      if d.id == st.nextId then { d with charges := d.charges ++ [s.id] } else d) = st.docs :=
    map_guard_id (fun d hd => Nat.ne_of_lt (hfresh d hd))
  have hmap2 : st.docs.map (fun d =>
      if d.id == st.nextId then { d with state := DocState.issued } else d) = st.docs :=
    map_guard_id (fun d hd => Nat.ne_of_lt (hfresh d hd))
  simp only [beq_iff_eq] at hmap1 hmap2
  cases hc : s.state == "canceled" <;>
    cases hi : s.plan.provider.default_document_state == DocState.issued <;>
      simp [generate_for_single_subscription_now, create_document,
        add_total_value_to_document, issue_document, emit, endEvents, issueEvents,
        hc, hi, hmap1, hmap2]

theorem newDocsSpec_mem (bd : Date) (c : Customer) :
    ∀ (subs : List Subscription) (keys : List Nat) (nid : Nat),
    ∀ d ∈ newDocsSpec bd c keys nid subs,
      d.customer = c.id ∧ d.kind = d.provider.flow
        ∧ d.due_date = addDays bd c.payment_due_days
        ∧ d.charges = chargesFor bd d.provider.id subs
        ∧ d.provider.id ∉ keys
        ∧ ∃ s0 ∈ subs, s0.should_be_billed bd = true ∧ s0.plan.provider = d.provider
  | [], _, _ => by simp [newDocsSpec]
  | s :: rest, keys, nid => by
    intro d hd
    simp only [newDocsSpec] at hd
    split at hd
    case isTrue hs =>
      split at hd
      case isTrue hk =>
        obtain ⟨h1, h2, h3, h4, h5, s0, hs0, hs0b, hs0p⟩ :=
          newDocsSpec_mem bd c rest keys nid d hd
        have hne : s.plan.provider.id ≠ d.provider.id := by
          intro h
          exact h5 (h ▸ hk)
        exact ⟨h1, h2, h3, by rw [h4, chargesFor_cons_neg (Or.inr hne)], h5,
          s0, List.mem_cons_of_mem _ hs0, hs0b, hs0p⟩
      case isFalse hk =>
        rcases List.mem_cons.mp hd with rfl | hd
        · refine ⟨rfl, rfl, rfl, ?_, hk, s, List.mem_cons_self _ _, hs, rfl⟩
          dsimp only
          rw [chargesFor_cons_pos hs rfl]
        · obtain ⟨h1, h2, h3, h4, h5, s0, hs0, hs0b, hs0p⟩ :=
            newDocsSpec_mem bd c rest _ _ d hd
          have hne : s.plan.provider.id ≠ d.provider.id := by
            intro h
            exact h5 (h ▸ List.mem_cons_self _ _)
          refine ⟨h1, h2, h3, by rw [h4, chargesFor_cons_neg (Or.inr hne)],
            fun hmem => h5 (List.mem_cons_of_mem _ hmem),
            s0, List.mem_cons_of_mem _ hs0, hs0b, hs0p⟩
    case isFalse hs =>
      obtain ⟨h1, h2, h3, h4, h5, s0, hs0, hs0b, hs0p⟩ :=
        newDocsSpec_mem bd c rest keys nid d hd
      have hsf : s.should_be_billed bd = false := by
        revert hs
        cases s.should_be_billed bd <;> simp
      exact ⟨h1, h2, h3, by rw [h4, chargesFor_cons_neg (Or.inl hsf)], h5,
        s0, List.mem_cons_of_mem _ hs0, hs0b, hs0p⟩

theorem newDocsSpec_pid_nodup (bd : Date) (c : Customer) :
    ∀ (subs : List Subscription) (keys : List Nat) (nid : Nat),
    ((newDocsSpec bd c keys nid subs).map (fun d => d.provider.id)).Nodup
  | [], _, _ => by simp [newDocsSpec]
  | s :: rest, keys, nid => by
    simp only [newDocsSpec]
    split
    case isTrue hs =>
      split
      case isTrue hk => exact newDocsSpec_pid_nodup bd c rest keys nid
      case isFalse hk =>
        rw [List.map_cons, List.nodup_cons]
        refine ⟨?_, newDocsSpec_pid_nodup bd c rest _ _⟩
        intro hmem
        obtain ⟨d, hd, hdp⟩ := List.mem_map.mp hmem
        have h5 := (newDocsSpec_mem bd c rest _ _ d hd).2.2.2.2.1
        exact h5 (hdp ▸ List.mem_cons_self _ _)
    case isFalse hs => exact newDocsSpec_pid_nodup bd c rest keys nid

theorem newDocsSpec_id_ub (bd : Date) (c : Customer) :
    ∀ (subs : List Subscription) (keys : List Nat) (nid : Nat),
    ∀ d ∈ newDocsSpec bd c keys nid subs,
      d.id < nid + (newDocsSpec bd c keys nid subs).length
  | [], _, _ => by simp [newDocsSpec]
  | s :: rest, keys, nid => by
    intro d hd
    simp only [newDocsSpec] at hd ⊢
    split at hd
    case isTrue hs =>
      rw [if_pos hs]
      split at hd
      case isTrue hk =>
        rw [if_pos hk]
        exact newDocsSpec_id_ub bd c rest keys nid d hd
      case isFalse hk =>
        rw [if_neg hk]
        rcases List.mem_cons.mp hd with rfl | hd
        · simp
        · have := newDocsSpec_id_ub bd c rest _ _ d hd
          simp only [List.length_cons]
          omega
    case isFalse hs =>
      rw [if_neg hs]
      exact newDocsSpec_id_ub bd c rest keys nid d hd

theorem newDocsSpec_ids_nodup (bd : Date) (c : Customer) :
    ∀ (subs : List Subscription) (keys : List Nat) (nid : Nat),
    ((newDocsSpec bd c keys nid subs).map (fun d => d.id)).Nodup
  | [], _, _ => by simp [newDocsSpec]
  | s :: rest, keys, nid => by
    simp only [newDocsSpec]
    split
    case isTrue hs =>
      split
      case isTrue hk => exact newDocsSpec_ids_nodup bd c rest keys nid
      case isFalse hk =>
        rw [List.map_cons, List.nodup_cons]
        refine ⟨?_, newDocsSpec_ids_nodup bd c rest _ _⟩
        intro hmem
        obtain ⟨d, hd, hdp⟩ := List.mem_map.mp hmem
        have := newDocsSpec_id_lb bd c rest _ _ d hd
        dsimp only at hdp
        omega
    case isFalse hs => exact newDocsSpec_ids_nodup bd c rest keys nid

theorem issueUpdate_fields (cache : List (Provider × Nat)) (d : Document) :
    (issueUpdate cache d).id = d.id ∧ (issueUpdate cache d).provider = d.provider
      ∧ (issueUpdate cache d).customer = d.customer
      ∧ (issueUpdate cache d).kind = d.kind
      ∧ (issueUpdate cache d).due_date = d.due_date
      ∧ (issueUpdate cache d).charges = d.charges := by
  unfold issueUpdate
  split <;> simp

theorem newDocsSpec_length_card (bd : Date) (c : Customer) :
    ∀ (subs : List Subscription) (keys : List Nat) (nid : Nat),
    (newDocsSpec bd c keys nid subs).length
      = (((subs.filter (fun s => s.should_be_billed bd)).map
          (fun s => s.plan.provider.id)).toFinset \ keys.toFinset).card
  | [], _, _ => by simp [newDocsSpec]
  | s :: rest, keys, nid => by
    rcases (Bool.eq_false_or_eq_true (s.should_be_billed bd)).symm with hs | hs
    · have h1 : newDocsSpec bd c keys nid (s :: rest) = newDocsSpec bd c keys nid rest := by
        simp [newDocsSpec, hs]
      have h2 : (s :: rest).filter (fun s => s.should_be_billed bd)
          = rest.filter (fun s => s.should_be_billed bd) := by
        simp [List.filter_cons, hs]
      rw [h1, h2]
      exact newDocsSpec_length_card bd c rest keys nid
    · have h2 : (s :: rest).filter (fun s => s.should_be_billed bd)
          = s :: rest.filter (fun s => s.should_be_billed bd) := by
        simp [List.filter_cons, hs]
      rw [h2, List.map_cons, List.toFinset_cons]
      by_cases hk : s.plan.provider.id ∈ keys
      · have h1 : newDocsSpec bd c keys nid (s :: rest) = newDocsSpec bd c keys nid rest := by
          simp [newDocsSpec, hs, hk]
        rw [h1, newDocsSpec_length_card bd c rest keys nid,
          Finset.insert_sdiff_of_mem _ (List.mem_toFinset.mpr hk)]
      · have h1 : newDocsSpec bd c keys nid (s :: rest)
            = ({ id := nid, provider := s.plan.provider, customer := c.id,
                 kind := s.plan.provider.flow, due_date := addDays bd c.payment_due_days,
                 charges := s.id :: chargesFor bd s.plan.provider.id rest,
                 state := DocState.draft } : Document)
              :: newDocsSpec bd c (s.plan.provider.id :: keys) (nid + 1) rest := by
          simp [newDocsSpec, hs, hk]
        rw [h1, List.length_cons,
          newDocsSpec_length_card bd c rest (s.plan.provider.id :: keys) (nid + 1),
          List.toFinset_cons, Finset.sdiff_insert,
          Finset.insert_sdiff_of_not_mem _ (fun h => hk (List.mem_toFinset.mp h)),
          Finset.card_insert_eq_ite, Finset.card_erase_eq_ite]
        by_cases hmem : s.plan.provider.id ∈
            ((rest.filter (fun s => s.should_be_billed bd)).map
              (fun s => s.plan.provider.id)).toFinset \ keys.toFinset
        · rw [if_pos hmem, if_pos hmem]
          have hpos : 0 < (((rest.filter (fun s => s.should_be_billed bd)).map
              (fun s => s.plan.provider.id)).toFinset \ keys.toFinset).card :=
            Finset.card_pos.mpr ⟨_, hmem⟩
          omega
        · rw [if_neg hmem, if_neg hmem]

theorem mem_endEvents {s : Subscription} {ev : Event} (h : ev ∈ endEvents s) :
    ev = Event.endSub s.id ∨ ev = Event.saveSub s.id := by
  unfold endEvents at h
  split at h
  · rcases List.mem_cons.mp h with rfl | h
    · exact Or.inl rfl
    · exact Or.inr (List.mem_singleton.mp h)
  · cases h

theorem endEvents_of_canceled {s : Subscription} (h : s.state = "canceled") :
    endEvents s = [Event.endSub s.id, Event.saveSub s.id] := by
  simp [endEvents, h]

theorem mem_issueEvents {p : Provider} {i : Nat} {ev : Event} (h : ev ∈ issueEvents p i) :
    ev = Event.issueDoc i ∨ ev = Event.saveDoc i := by
  unfold issueEvents at h
  split at h
  · rcases List.mem_cons.mp h with rfl | h
    · exact Or.inl rfl
    · exact Or.inr (List.mem_singleton.mp h)
  · cases h

theorem infix_extend_left {α : Type} {l t : List α} (pre : List α) (h : List.IsInfix l t) :
    List.IsInfix l (pre ++ t) := by
  obtain ⟨u, v, huv⟩ := h
  exact ⟨pre ++ u, v, by rw [List.append_assoc, List.append_assoc, ← List.append_assoc u,
    huv]⟩

theorem loopTraceSpec_mem_shape (bd : Date) :
    ∀ (subs : List Subscription) (pc : List (Nat × Nat)) (nid : Nat),
    ∀ ev ∈ loopTraceSpec bd pc nid subs,
      (∃ a b, ev = Event.createDoc a b) ∨ (∃ a b, ev = Event.addCharge a b bd)
        ∨ (∃ a, ev = Event.endSub a) ∨ (∃ a, ev = Event.saveSub a)
  | [], _, _ => by simp [loopTraceSpec]
  | s :: rest, pc, nid => by
    intro ev hmem
    simp only [loopTraceSpec] at hmem
    split at hmem
    case isTrue hs =>
      cases hl : lookupD pc s.plan.provider.id with
      | some j =>
        rw [hl] at hmem
        rcases List.mem_cons.mp hmem with rfl | hmem
        · exact Or.inr (Or.inl ⟨_, _, rfl⟩)
        · rcases List.mem_append.mp hmem with hmem | hmem
          · rcases mem_endEvents hmem with rfl | rfl
            · exact Or.inr (Or.inr (Or.inl ⟨_, rfl⟩))
            · exact Or.inr (Or.inr (Or.inr ⟨_, rfl⟩))
          · exact loopTraceSpec_mem_shape bd rest pc nid ev hmem
      | none =>
        rw [hl] at hmem
        rcases List.mem_cons.mp hmem with rfl | hmem
        · exact Or.inl ⟨_, _, rfl⟩
        · rcases List.mem_cons.mp hmem with rfl | hmem
          · exact Or.inr (Or.inl ⟨_, _, rfl⟩)
          · rcases List.mem_append.mp hmem with hmem | hmem
            · rcases mem_endEvents hmem with rfl | rfl
              · exact Or.inr (Or.inr (Or.inl ⟨_, rfl⟩))
              · exact Or.inr (Or.inr (Or.inr ⟨_, rfl⟩))
            · exact loopTraceSpec_mem_shape bd rest _ _ ev hmem
    case isFalse hs => exact loopTraceSpec_mem_shape bd rest pc nid ev hmem

theorem loopTraceSpec_end_infix (bd : Date) :
    ∀ (subs : List Subscription) (pc : List (Nat × Nat)) (nid : Nat) (s : Subscription),
    s ∈ subs → s.should_be_billed bd = true → s.state = "canceled" →
    ∃ i, List.IsInfix [Event.addCharge s.id i bd, Event.endSub s.id, Event.saveSub s.id]
      (loopTraceSpec bd pc nid subs)
  | [], _, _, _, hmem, _, _ => by cases hmem
  | s0 :: rest, pc, nid, s, hmem, hb, hc => by
    rcases List.mem_cons.mp hmem with rfl | hmem
    · cases hl : lookupD pc s.plan.provider.id with
      | some j =>
        have h1 : loopTraceSpec bd pc nid (s :: rest)
            = Event.addCharge s.id j bd :: (endEvents s ++ loopTraceSpec bd pc nid rest) := by
          simp [loopTraceSpec, hb, hl]
        rw [h1, endEvents_of_canceled hc]
        exact ⟨j, [], loopTraceSpec bd pc nid rest, by simp⟩
      | none =>
        have h1 : loopTraceSpec bd pc nid (s :: rest)
            = Event.createDoc nid s.plan.provider.id :: Event.addCharge s.id nid bd ::
              (endEvents s
                ++ loopTraceSpec bd ((s.plan.provider.id, nid) :: pc) (nid + 1) rest) := by
          simp [loopTraceSpec, hb, hl]
        rw [h1, endEvents_of_canceled hc]
        exact ⟨nid, [Event.createDoc nid s.plan.provider.id],
          loopTraceSpec bd ((s.plan.provider.id, nid) :: pc) (nid + 1) rest, by simp⟩
    · rcases (Bool.eq_false_or_eq_true (s0.should_be_billed bd)).symm with hs0 | hs0
      · have h1 : loopTraceSpec bd pc nid (s0 :: rest) = loopTraceSpec bd pc nid rest := by
          simp [loopTraceSpec, hs0]
        rw [h1]
        exact loopTraceSpec_end_infix bd rest pc nid s hmem hb hc
      · cases hl : lookupD pc s0.plan.provider.id with
        | some j =>
          have h1 : loopTraceSpec bd pc nid (s0 :: rest)
              = (Event.addCharge s0.id j bd :: endEvents s0)
                ++ loopTraceSpec bd pc nid rest := by
            simp [loopTraceSpec, hs0, hl]
          obtain ⟨i, hi⟩ := loopTraceSpec_end_infix bd rest pc nid s hmem hb hc
          refine ⟨i, ?_⟩
          rw [h1]
          exact infix_extend_left _ hi
        | none =>
          have h1 : loopTraceSpec bd pc nid (s0 :: rest)
              = (Event.createDoc nid s0.plan.provider.id ::
                  Event.addCharge s0.id nid bd :: endEvents s0)
                ++ loopTraceSpec bd ((s0.plan.provider.id, nid) :: pc) (nid + 1) rest := by
            simp [loopTraceSpec, hs0, hl]
          obtain ⟨i, hi⟩ := loopTraceSpec_end_infix bd rest
            ((s0.plan.provider.id, nid) :: pc) (nid + 1) s hmem hb hc
          refine ⟨i, ?_⟩
          rw [h1]
          exact infix_extend_left _ hi

theorem loopTraceSpec_end_not_mem (bd : Date) :
    ∀ (subs : List Subscription) (pc : List (Nat × Nat)) (nid : Nat) (sid : Nat),
    (∀ s0 ∈ subs, s0.id = sid →
      ¬(s0.should_be_billed bd = true ∧ s0.state = "canceled")) →
    Event.endSub sid ∉ loopTraceSpec bd pc nid subs
  | [], _, _, _, _ => by simp [loopTraceSpec]
  | s :: rest, pc, nid, sid, h => by
    intro hmem
    simp only [loopTraceSpec] at hmem
    split at hmem
    case isTrue hs =>
      have hrest : Event.endSub sid ∉ loopTraceSpec bd pc nid rest :=
        loopTraceSpec_end_not_mem bd rest pc nid sid
          (fun s0 hs0 => h s0 (List.mem_cons_of_mem _ hs0))
      have hrest2 : ∀ pc2 nid2, Event.endSub sid ∉ loopTraceSpec bd pc2 nid2 rest :=
        fun pc2 nid2 => loopTraceSpec_end_not_mem bd rest pc2 nid2 sid
          (fun s0 hs0 => h s0 (List.mem_cons_of_mem _ hs0))
      have hend : Event.endSub sid ∉ endEvents s := by
        intro hin
        rcases mem_endEvents hin with heq | heq
        · have hsid : s.id = sid := by
            cases heq
            rfl
          have hcanc : s.state = "canceled" := by
            by_contra hnc
            simp [endEvents, hnc] at hin
          exact h s (List.mem_cons_self _ _) hsid ⟨hs, hcanc⟩
        · cases heq
      cases hl : lookupD pc s.plan.provider.id with
      | some j =>
        rw [hl] at hmem
        rcases List.mem_cons.mp hmem with heq | hmem
        · cases heq
        · rcases List.mem_append.mp hmem with hmem | hmem
          · exact hend hmem
          · exact hrest hmem
      | none =>
        rw [hl] at hmem
        rcases List.mem_cons.mp hmem with heq | hmem
        · cases heq
        · rcases List.mem_cons.mp hmem with heq | hmem
          · cases heq
          · rcases List.mem_append.mp hmem with hmem | hmem
            · exact hend hmem
            · exact hrest2 _ _ hmem
    case isFalse hs =>
      exact loopTraceSpec_end_not_mem bd rest pc nid sid
        (fun s0 hs0 => h s0 (List.mem_cons_of_mem _ hs0)) hmem

theorem issueTraceSpec_mem_shape :
    ∀ (cache : List (Provider × Nat)), ∀ ev ∈ issueTraceSpec cache,
      (∃ i, ev = Event.issueDoc i) ∨ (∃ i, ev = Event.saveDoc i)
  | [] => by simp [issueTraceSpec]
  | e :: rest => by
    intro ev hmem
    simp only [issueTraceSpec] at hmem
    rcases List.mem_append.mp hmem with h | h
    · rcases mem_issueEvents h with rfl | rfl
      · exact Or.inl ⟨_, rfl⟩
      · exact Or.inr ⟨_, rfl⟩
    · exact issueTraceSpec_mem_shape rest ev h

theorem issueTraceSpec_mem_of :
    ∀ (cache : List (Provider × Nat)) (e0 : Provider × Nat), e0 ∈ cache →
    e0.1.default_document_state = DocState.issued →
    Event.issueDoc e0.2 ∈ issueTraceSpec cache
      ∧ Event.saveDoc e0.2 ∈ issueTraceSpec cache
  | [], _, hmem, _ => by cases hmem
  | e :: rest, e0, hmem, hi => by
    simp only [issueTraceSpec]
    rcases List.mem_cons.mp hmem with rfl | hmem
    · constructor <;> exact List.mem_append_left _ (by simp [issueEvents, hi])
    · obtain ⟨h1, h2⟩ := issueTraceSpec_mem_of rest e0 hmem hi
      exact ⟨List.mem_append_right _ h1, List.mem_append_right _ h2⟩

theorem issueEvents_count_ne {p : Provider} {i j : Nat} (h : j ≠ i) :
    (issueEvents p j).count (Event.issueDoc i) = 0 := by
  unfold issueEvents
  split <;> simp [List.count_cons, h]

theorem issueEvents_count_self (p : Provider) (i : Nat) :
    (issueEvents p i).count (Event.issueDoc i)
      = if p.default_document_state = DocState.issued then 1 else 0 := by
  unfold issueEvents
  by_cases h : p.default_document_state = DocState.issued
  · rw [if_pos (by simp [h]), if_pos h]
    simp [List.count_cons]
  · rw [if_neg (by simp [h]), if_neg h]
    simp

theorem issueTraceSpec_count_not (i : Nat) :
    ∀ (cache : List (Provider × Nat)), (∀ e ∈ cache, e.2 ≠ i) →
    (issueTraceSpec cache).count (Event.issueDoc i) = 0
  | [], _ => rfl
  | e :: rest, h => by
    simp only [issueTraceSpec, List.count_append]
    rw [issueTraceSpec_count_not i rest (fun e2 he2 => h e2 (List.mem_cons_of_mem _ he2)),
      issueEvents_count_ne (h e (List.mem_cons_self _ _))]

theorem issueTraceSpec_count_mem :
    ∀ (cache : List (Provider × Nat)) (e0 : Provider × Nat),
    (cache.map (fun e => e.2)).Nodup → e0 ∈ cache →
    (issueTraceSpec cache).count (Event.issueDoc e0.2)
      = if e0.1.default_document_state = DocState.issued then 1 else 0
  | [], _, _, hmem => by cases hmem
  | e :: rest, e0, hnd, hmem => by
    simp only [issueTraceSpec, List.count_append]
    rcases List.mem_cons.mp hmem with rfl | hmem
    · have hnot : ∀ e2 ∈ rest, e2.2 ≠ e0.2 := by
        intro e2 he2 heq
        apply (List.nodup_cons.mp hnd).1
        have hm : e2.2 ∈ rest.map (fun e => e.2) := List.mem_map_of_mem _ he2
        rw [heq] at hm
        exact hm
      rw [issueTraceSpec_count_not _ rest hnot, issueEvents_count_self, Nat.add_zero]
    · have hne : e.2 ≠ e0.2 := by
        intro heq
        apply (List.nodup_cons.mp hnd).1
        have hm : e0.2 ∈ rest.map (fun e => e.2) := List.mem_map_of_mem _ hmem
        rw [← heq] at hm
        exact hm
      rw [issueEvents_count_ne hne,
        issueTraceSpec_count_mem rest e0 (List.nodup_cons.mp hnd).2 hmem, Nat.zero_add]

theorem nonConsDocsSpec_mem (bd : Date) (c : Customer) :
    ∀ (subs : List Subscription) (nid : Nat),
    ∀ d ∈ nonConsDocsSpec bd c nid subs,
      d.customer = c.id ∧ d.kind = d.provider.flow
        ∧ d.due_date = addDays bd c.payment_due_days
        ∧ d.state = (if d.provider.default_document_state == DocState.issued
            then DocState.issued else DocState.draft)
        ∧ nid ≤ d.id
        ∧ ∃ s0 ∈ subs, s0.should_be_billed bd = true ∧ s0.plan.provider = d.provider
            ∧ d.charges = [s0.id]
  | [], _ => by simp [nonConsDocsSpec]
  | s :: rest, nid => by
    intro d hd
    simp only [nonConsDocsSpec] at hd
    split at hd
    case isTrue hs =>
      rcases List.mem_cons.mp hd with rfl | hd
      · exact ⟨rfl, rfl, rfl, rfl, Nat.le_refl _, s, List.mem_cons_self _ _, hs, rfl, rfl⟩
      · obtain ⟨h1, h2, h3, h4, h5, s0, hs0, ha, hb2, hc2⟩ :=
          nonConsDocsSpec_mem bd c rest _ d hd
        exact ⟨h1, h2, h3, h4, Nat.le_of_succ_le h5, s0, List.mem_cons_of_mem _ hs0,
          ha, hb2, hc2⟩
    case isFalse hs =>
      obtain ⟨h1, h2, h3, h4, h5, s0, hs0, ha, hb2, hc2⟩ :=
        nonConsDocsSpec_mem bd c rest _ d hd
      exact ⟨h1, h2, h3, h4, h5, s0, List.mem_cons_of_mem _ hs0, ha, hb2, hc2⟩

theorem nonConsDocsSpec_map_charges (bd : Date) (c : Customer) :
    ∀ (subs : List Subscription) (nid : Nat),
    (nonConsDocsSpec bd c nid subs).map (fun d => d.charges)
      = (subs.filter (fun s => s.should_be_billed bd)).map (fun s => [s.id])
  | [], _ => rfl
  | s :: rest, nid => by
    simp only [nonConsDocsSpec, List.filter_cons]
    by_cases hs : s.should_be_billed bd = true
    · rw [if_pos hs, if_pos hs, List.map_cons, List.map_cons]
      exact congrArg₂ _ rfl (nonConsDocsSpec_map_charges bd c rest (nid + 1))
    · rw [if_neg hs, if_neg hs]
      exact nonConsDocsSpec_map_charges bd c rest nid

theorem nonConsTraceSpec_addCharge_date (bd : Date) :
    ∀ (subs : List Subscription) (nid : Nat) (a b : Nat) (d0 : Date),
    Event.addCharge a b d0 ∈ nonConsTraceSpec bd nid subs → d0 = bd
  | [], _, _, _, _ => by simp [nonConsTraceSpec]
  | s :: rest, nid, a, b, d0 => by
    intro hmem
    simp only [nonConsTraceSpec] at hmem
    split at hmem
    case isTrue hs =>
      rcases List.mem_cons.mp hmem with heq | hmem
      · cases heq
      · rcases List.mem_cons.mp hmem with heq | hmem
        · injection heq with h1 h2 h3
        · rcases List.mem_append.mp hmem with hmem | hmem
          · rcases List.mem_append.mp hmem with hmem | hmem
            · rcases mem_endEvents hmem with heq | heq <;> cases heq
            · rcases mem_issueEvents hmem with heq | heq <;> cases heq
          · exact nonConsTraceSpec_addCharge_date bd rest _ a b d0 hmem
    case isFalse hs => exact nonConsTraceSpec_addCharge_date bd rest nid a b d0 hmem

theorem nonConsTraceSpec_issue_lb (bd : Date) :
    ∀ (subs : List Subscription) (nid : Nat) (i : Nat),
    Event.issueDoc i ∈ nonConsTraceSpec bd nid subs → nid ≤ i
  | [], _, _ => by simp [nonConsTraceSpec]
  | s :: rest, nid, i => by
    intro hmem
    simp only [nonConsTraceSpec] at hmem
    split at hmem
    case isTrue hs =>
      rcases List.mem_cons.mp hmem with heq | hmem
      · cases heq
      · rcases List.mem_cons.mp hmem with heq | hmem
        · cases heq
        · rcases List.mem_append.mp hmem with hmem | hmem
          · rcases List.mem_append.mp hmem with hmem | hmem
            · rcases mem_endEvents hmem with heq | heq <;> cases heq
            · rcases mem_issueEvents hmem with heq | heq
              · injection heq with h1
                omega
              · cases heq
          · have := nonConsTraceSpec_issue_lb bd rest (nid + 1) i hmem
            omega
    case isFalse hs => exact nonConsTraceSpec_issue_lb bd rest nid i hmem

theorem nonConsTraceSpec_end_infix (bd : Date) :
    ∀ (subs : List Subscription) (nid : Nat) (s : Subscription),
    s ∈ subs → s.should_be_billed bd = true → s.state = "canceled" →
    ∃ i, List.IsInfix [Event.addCharge s.id i bd, Event.endSub s.id, Event.saveSub s.id]
      (nonConsTraceSpec bd nid subs)
  | [], _, _, hmem, _, _ => by cases hmem
  | s0 :: rest, nid, s, hmem, hb, hc => by
    rcases List.mem_cons.mp hmem with rfl | hmem
    · have h1 : nonConsTraceSpec bd nid (s :: rest)
          = Event.createDoc nid s.plan.provider.id :: Event.addCharge s.id nid bd ::
            (endEvents s ++ issueEvents s.plan.provider nid
              ++ nonConsTraceSpec bd (nid + 1) rest) := by
        simp [nonConsTraceSpec, hb]
      rw [h1, endEvents_of_canceled hc]
      exact ⟨nid, [Event.createDoc nid s.plan.provider.id],
        issueEvents s.plan.provider nid ++ nonConsTraceSpec bd (nid + 1) rest, by simp⟩
    · rcases (Bool.eq_false_or_eq_true (s0.should_be_billed bd)).symm with hs0 | hs0
      · have h1 : nonConsTraceSpec bd nid (s0 :: rest) = nonConsTraceSpec bd nid rest := by
          simp [nonConsTraceSpec, hs0]
        rw [h1]
        exact nonConsTraceSpec_end_infix bd rest nid s hmem hb hc
      · have h1 : nonConsTraceSpec bd nid (s0 :: rest)
            = (Event.createDoc nid s0.plan.provider.id :: Event.addCharge s0.id nid bd ::
                (endEvents s0 ++ issueEvents s0.plan.provider nid))
              ++ nonConsTraceSpec bd (nid + 1) rest := by
          simp [nonConsTraceSpec, hs0]
        obtain ⟨i, hi⟩ := nonConsTraceSpec_end_infix bd rest (nid + 1) s hmem hb hc
        refine ⟨i, ?_⟩
        rw [h1]
        exact infix_extend_left _ hi

theorem nonConsTraceSpec_end_not_mem (bd : Date) :
    ∀ (subs : List Subscription) (nid : Nat) (sid : Nat),
    (∀ s0 ∈ subs, s0.id = sid →
      ¬(s0.should_be_billed bd = true ∧ s0.state = "canceled")) →
    Event.endSub sid ∉ nonConsTraceSpec bd nid subs
  | [], _, _, _ => by simp [nonConsTraceSpec]
  | s :: rest, nid, sid, h => by
    intro hmem
    simp only [nonConsTraceSpec] at hmem
    split at hmem
    case isTrue hs =>
      have hend : Event.endSub sid ∉ endEvents s := by
        intro hin
        rcases mem_endEvents hin with heq | heq
        · have hsid : s.id = sid := by
            cases heq
            rfl
          have hcanc : s.state = "canceled" := by
            by_contra hnc
            simp [endEvents, hnc] at hin
          exact h s (List.mem_cons_self _ _) hsid ⟨hs, hcanc⟩
        · cases heq
      rcases List.mem_cons.mp hmem with heq | hmem
      · cases heq
      · rcases List.mem_cons.mp hmem with heq | hmem
        · cases heq
        · rcases List.mem_append.mp hmem with hmem | hmem
          · rcases List.mem_append.mp hmem with hmem | hmem
            · exact hend hmem
            · rcases mem_issueEvents hmem with heq | heq <;> cases heq
          · exact nonConsTraceSpec_end_not_mem bd rest (nid + 1) sid
              (fun s0 hs0 => h s0 (List.mem_cons_of_mem _ hs0)) hmem
    case isFalse hs =>
      exact nonConsTraceSpec_end_not_mem bd rest nid sid
        (fun s0 hs0 => h s0 (List.mem_cons_of_mem _ hs0)) hmem

theorem nonConsTraceSpec_issue_count (bd : Date) (c : Customer) :
    ∀ (subs : List Subscription) (nid : Nat),
    ∀ d ∈ nonConsDocsSpec bd c nid subs,
    (nonConsTraceSpec bd nid subs).count (Event.issueDoc d.id)
      = if d.provider.default_document_state = DocState.issued then 1 else 0
  | [], _ => by simp [nonConsDocsSpec]
  | s :: rest, nid => by
    intro d hd
    simp only [nonConsDocsSpec] at hd
    split at hd
    case isTrue hs =>
      have htr : nonConsTraceSpec bd nid (s :: rest)
          = Event.createDoc nid s.plan.provider.id :: Event.addCharge s.id nid bd ::
            (endEvents s ++ issueEvents s.plan.provider nid
              ++ nonConsTraceSpec bd (nid + 1) rest) := by
        simp [nonConsTraceSpec, hs]
      rw [htr]
      have hend : ∀ j, (endEvents s).count (Event.issueDoc j) = 0 := by
        intro j
        rw [List.count_eq_zero]
        intro hm
        rcases mem_endEvents hm with heq | heq <;> cases heq
      rcases List.mem_cons.mp hd with rfl | hd
      · have h0 : (nonConsTraceSpec bd (nid + 1) rest).count (Event.issueDoc nid) = 0 := by
          rw [List.count_eq_zero]
          intro hm
          have := nonConsTraceSpec_issue_lb bd rest (nid + 1) nid hm
          omega
        simp only [List.count_cons, List.count_append, hend, h0, issueEvents_count_self]
        simp
      · have hlb := (nonConsDocsSpec_mem bd c rest (nid + 1) d hd).2.2.2.2.1
        have hie : (issueEvents s.plan.provider nid).count (Event.issueDoc d.id) = 0 :=
          issueEvents_count_ne (by omega)
        have hrec := nonConsTraceSpec_issue_count bd c rest (nid + 1) d hd
        simp only [List.count_cons, List.count_append, hend, hie, hrec]
        simp
    case isFalse hs =>
      have htr : nonConsTraceSpec bd nid (s :: rest) = nonConsTraceSpec bd nid rest := by
        simp [nonConsTraceSpec, hs]
      rw [htr]
      exact nonConsTraceSpec_issue_count bd c rest nid d hd

theorem processConsolidatedSub_skip_acc {c : Customer} {bd : Date} {s : Subscription}
    (acc : GenState × List (Provider × Nat)) (h : s.should_be_billed bd = false) :
    processConsolidatedSub c bd acc s = acc := by
  simp [processConsolidatedSub, h]

theorem processNonConsolidatedSub_skip {c : Customer} {bd : Date} {s : Subscription}
    (st : GenState) (h : s.should_be_billed bd = false) :
    processNonConsolidatedSub c bd st s = st := by
  simp [processNonConsolidatedSub, h]

theorem stateFilter_append (l1 l2 : List Subscription) :
    stateFilter (l1 ++ l2) = stateFilter l1 ++ stateFilter l2 :=
  List.filter_append l1 l2

theorem stateFilter_cons_bad {s : Subscription}
    (h : s.state ≠ "active" ∧ s.state ≠ "canceled") (l : List Subscription) :
    stateFilter (s :: l) = stateFilter l := by
  simp [stateFilter, List.filter_cons, h.1, h.2]

theorem consolidated_removal (st : GenState) (c : Customer) (bd : Date)
    (pre post : List Subscription) (s : Subscription)
    (h : (s.state ≠ "active" ∧ s.state ≠ "canceled") ∨ s.should_be_billed bd = false) :
    generate_for_user_with_consolidated_billing st c (pre ++ s :: post) bd
      = generate_for_user_with_consolidated_billing st c (pre ++ post) bd := by
  unfold generate_for_user_with_consolidated_billing
  rcases h with hstate | hsbb
  · rw [stateFilter_append, stateFilter_append, stateFilter_cons_bad hstate]
  · by_cases hst : (s.state == "active" || s.state == "canceled") = true
    · have h1 : stateFilter (pre ++ s :: post)
          = stateFilter pre ++ s :: stateFilter post := by
        simp [stateFilter, List.filter_append, List.filter_cons, hst]
      have h2 : stateFilter (pre ++ post) = stateFilter pre ++ stateFilter post := by
        simp [stateFilter, List.filter_append]
      rw [h1, h2, List.foldl_append, List.foldl_append, List.foldl_cons,
        processConsolidatedSub_skip_acc _ hsbb]
    · have h1 : stateFilter (pre ++ s :: post) = stateFilter pre ++ stateFilter post := by
        simp [stateFilter, List.filter_append, List.filter_cons, hst]
      have h2 : stateFilter (pre ++ post) = stateFilter pre ++ stateFilter post := by
        simp [stateFilter, List.filter_append]
      rw [h1, h2]

theorem noncons_removal (st : GenState) (c : Customer) (bd : Date)
    (pre post : List Subscription) (s : Subscription)
    (h : (s.state ≠ "active" ∧ s.state ≠ "canceled") ∨ s.should_be_billed bd = false) :
    generate_for_user_without_consolidated_billing st c (pre ++ s :: post) bd
      = generate_for_user_without_consolidated_billing st c (pre ++ post) bd := by
  unfold generate_for_user_without_consolidated_billing
  rcases h with hstate | hsbb
  · rw [stateFilter_append, stateFilter_append, stateFilter_cons_bad hstate]
  · by_cases hst : (s.state == "active" || s.state == "canceled") = true
    · have h1 : stateFilter (pre ++ s :: post)
          = stateFilter pre ++ s :: stateFilter post := by
        simp [stateFilter, List.filter_append, List.filter_cons, hst]
      have h2 : stateFilter (pre ++ post) = stateFilter pre ++ stateFilter post := by
        simp [stateFilter, List.filter_append]
      rw [h1, h2, List.foldl_append, List.foldl_append, List.foldl_cons,
        processNonConsolidatedSub_skip _ hsbb]
    · have h1 : stateFilter (pre ++ s :: post) = stateFilter pre ++ stateFilter post := by
        simp [stateFilter, List.filter_append, List.filter_cons, hst]
      have h2 : stateFilter (pre ++ post) = stateFilter pre ++ stateFilter post := by
        simp [stateFilter, List.filter_append]
      rw [h1, h2]

theorem chargesFor_eligible (bd : Date) (subs : List Subscription) (pid : Nat) :
    chargesFor bd pid (stateFilter subs)
      = ((eligibleSubs bd subs).filter (fun s => s.plan.provider.id == pid)).map
          (fun s => s.id) := by
  unfold chargesFor eligibleSubs
  rw [List.filter_filter]
  refine congrArg _ (List.filter_congr ?_)
  intro s _
  cases h1 : s.should_be_billed bd <;> cases h2 : (s.plan.provider.id == pid) <;> simp [h1, h2]

theorem nonConsDocsSpec_id_ub (bd : Date) (c : Customer) :
    ∀ (subs : List Subscription) (nid : Nat),
    ∀ d ∈ nonConsDocsSpec bd c nid subs,
      d.id < nid + (nonConsDocsSpec bd c nid subs).length
  | [], _ => by simp [nonConsDocsSpec]
  | s :: rest, nid => by
    intro d hd
    simp only [nonConsDocsSpec] at hd ⊢
    split at hd
    case isTrue hs =>
      rw [if_pos hs]
      rcases List.mem_cons.mp hd with rfl | hd
      · simp
      · have := nonConsDocsSpec_id_ub bd c rest (nid + 1) d hd
        simp only [List.length_cons]
        omega
    case isFalse hs =>
      rw [if_neg hs]
      exact nonConsDocsSpec_id_ub bd c rest nid d hd

theorem generate_consolidated_fresh (st : GenState) (c : Customer)
    (subs : List Subscription) (bd : Date) (hfresh : ∀ d ∈ st.docs, d.id < st.nextId) :
    ∀ d ∈ (generate_for_user_with_consolidated_billing st c subs bd).docs,
      d.id < (generate_for_user_with_consolidated_billing st c subs bd).nextId := by
  rw [generate_consolidated_eq st c subs bd hfresh]
  intro d hd
  dsimp only at hd ⊢
  rcases List.mem_append.mp hd with hd | hd
  · have := hfresh d hd
    omega
  · obtain ⟨d0, hd0, rfl⟩ := List.mem_map.mp hd
    have hub := newDocsSpec_id_ub bd c (stateFilter subs) [] st.nextId d0 hd0
    have hfields := (issueUpdate_fields ((newDocsSpec bd c [] st.nextId
      (stateFilter subs)).map (fun d1 => (d1.provider, d1.id))) d0).1
    rw [hfields]
    exact hub

theorem generate_noncons_fresh (st : GenState) (c : Customer)
    (subs : List Subscription) (bd : Date) (hfresh : ∀ d ∈ st.docs, d.id < st.nextId) :
    ∀ d ∈ (generate_for_user_without_consolidated_billing st c subs bd).docs,
      d.id < (generate_for_user_without_consolidated_billing st c subs bd).nextId := by
  rw [generate_noncons_eq st c subs bd hfresh]
  intro d hd
  dsimp only at hd ⊢
  rcases List.mem_append.mp hd with hd | hd
  · have := hfresh d hd
    omega
  · exact nonConsDocsSpec_id_ub bd c (stateFilter subs) st.nextId d hd

theorem generate_consolidated_trace_dates (st : GenState) (c : Customer)
    (subs : List Subscription) (bd : Date) (hfresh : ∀ d ∈ st.docs, d.id < st.nextId) :
    ∀ a b d0, Event.addCharge a b d0 ∈
      (generate_for_user_with_consolidated_billing st c subs bd).trace →
    Event.addCharge a b d0 ∈ st.trace ∨ d0 = bd := by
  rw [generate_consolidated_eq st c subs bd hfresh]
  intro a b d0 hmem
  dsimp only at hmem
  rcases List.mem_append.mp hmem with h | h
  · exact Or.inl h
  · rcases List.mem_append.mp h with h | h
    · rcases loopTraceSpec_mem_shape bd (stateFilter subs) [] st.nextId _ h with
        ⟨a1, b1, heq⟩ | ⟨a1, b1, heq⟩ | ⟨a1, heq⟩ | ⟨a1, heq⟩
      · cases heq
      · injection heq with h1 h2 h3
        exact Or.inr h3
      · cases heq
      · cases heq
    · rcases issueTraceSpec_mem_shape _ _ h with ⟨i, heq⟩ | ⟨i, heq⟩ <;> cases heq

theorem generate_noncons_trace_dates (st : GenState) (c : Customer)
    (subs : List Subscription) (bd : Date) (hfresh : ∀ d ∈ st.docs, d.id < st.nextId) :
    ∀ a b d0, Event.addCharge a b d0 ∈
      (generate_for_user_without_consolidated_billing st c subs bd).trace →
    Event.addCharge a b d0 ∈ st.trace ∨ d0 = bd := by
  rw [generate_noncons_eq st c subs bd hfresh]
  intro a b d0 hmem
  dsimp only at hmem
  rcases List.mem_append.mp hmem with h | h
  · exact Or.inl h
  · exact Or.inr (nonConsTraceSpec_addCharge_date bd (stateFilter subs) st.nextId a b d0 h)

theorem generate_all_core (now : Date) :
    ∀ (crs : List CustomerRecord) (st : GenState),
    (∀ d ∈ st.docs, d.id < st.nextId) →
    (∀ d ∈ (crs.foldl (fun st cr =>
        if cr.customer.consolidated_billing then
          generate_for_user_with_consolidated_billing st cr.customer cr.subscriptions
            (firstOfMonth now)
        else
          generate_for_user_without_consolidated_billing st cr.customer cr.subscriptions
            (firstOfMonth now)) st).docs,
      d.id < (crs.foldl (fun st cr =>
        if cr.customer.consolidated_billing then
          generate_for_user_with_consolidated_billing st cr.customer cr.subscriptions
            (firstOfMonth now)
        else
          generate_for_user_without_consolidated_billing st cr.customer cr.subscriptions
            (firstOfMonth now)) st).nextId)
    ∧ (∀ a b d0, Event.addCharge a b d0 ∈ (crs.foldl (fun st cr =>
        if cr.customer.consolidated_billing then
          generate_for_user_with_consolidated_billing st cr.customer cr.subscriptions
            (firstOfMonth now)
        else
          generate_for_user_without_consolidated_billing st cr.customer cr.subscriptions
            (firstOfMonth now)) st).trace →
        Event.addCharge a b d0 ∈ st.trace ∨ d0 = firstOfMonth now)
  | [], st, hfresh => by
    refine ⟨hfresh, ?_⟩
    intro a b d0 hmem
    exact Or.inl hmem
  | cr :: rest, st, hfresh => by
    rw [List.foldl_cons]
    by_cases hcb : cr.customer.consolidated_billing = true
    · rw [if_pos hcb]
      obtain ⟨ih1, ih2⟩ := generate_all_core now rest
        (generate_for_user_with_consolidated_billing st cr.customer cr.subscriptions
          (firstOfMonth now))
        (generate_consolidated_fresh st cr.customer cr.subscriptions (firstOfMonth now)
          hfresh)
      refine ⟨ih1, ?_⟩
      intro a b d0 hmem
      rcases ih2 a b d0 hmem with h | h
      · exact generate_consolidated_trace_dates st cr.customer cr.subscriptions
          (firstOfMonth now) hfresh a b d0 h
      · exact Or.inr h
    · rw [if_neg hcb]
      obtain ⟨ih1, ih2⟩ := generate_all_core now rest
        (generate_for_user_without_consolidated_billing st cr.customer cr.subscriptions
          (firstOfMonth now))
        (generate_noncons_fresh st cr.customer cr.subscriptions (firstOfMonth now) hfresh)
      refine ⟨ih1, ?_⟩
      intro a b d0 hmem
      rcases ih2 a b d0 hmem with h | h
      · exact generate_noncons_trace_dates st cr.customer cr.subscriptions
          (firstOfMonth now) hfresh a b d0 h
      · exact Or.inr h

theorem infix_extend_right {α : Type} {l t : List α} (post : List α)
    (h : List.IsInfix l t) : List.IsInfix l (t ++ post) := by
  obtain ⟨u, v, huv⟩ := h
  exact ⟨u, v ++ post, by rw [← huv]; simp⟩

theorem newDocsSpec_state_draft (bd : Date) (c : Customer) :
    ∀ (subs : List Subscription) (keys : List Nat) (nid : Nat),
    ∀ d ∈ newDocsSpec bd c keys nid subs, d.state = DocState.draft
  | [], _, _ => by simp [newDocsSpec]
  | s :: rest, keys, nid => by
    intro d hd
    simp only [newDocsSpec] at hd
    split at hd
    case isTrue hs =>
      split at hd
      case isTrue hk => exact newDocsSpec_state_draft bd c rest keys nid d hd
      case isFalse hk =>
        rcases List.mem_cons.mp hd with rfl | hd
        · rfl
        · exact newDocsSpec_state_draft bd c rest _ _ d hd
    case isFalse hs => exact newDocsSpec_state_draft bd c rest keys nid d hd

theorem issueUpdate_state_self {bd : Date} {c : Customer} {subs : List Subscription}
    {keys : List Nat} {nid : Nat} (d0 : Document)
    (hd0 : d0 ∈ newDocsSpec bd c keys nid subs) :
    (issueUpdate ((newDocsSpec bd c keys nid subs).map (fun d => (d.provider, d.id)))
        d0).state
      = if d0.provider.default_document_state = DocState.issued then DocState.issued
        else d0.state := by
  unfold issueUpdate
  by_cases hp : d0.provider.default_document_state = DocState.issued
  · rw [if_pos ?_, if_pos hp]
    rw [List.any_eq_true]
    exact ⟨(d0.provider, d0.id), List.mem_map_of_mem _ hd0, by simp [hp]⟩
  · rw [if_neg ?_, if_neg hp]
    rw [List.any_eq_true]
    rintro ⟨e, hemem, hecond⟩
    obtain ⟨d1, hd1, rfl⟩ := List.mem_map.mp hemem
    dsimp only at hecond
    have hid : d1.id = d0.id := by
      have := (Bool.and_eq_true _ _).mp hecond
      simpa using this.1
    have hd1d0 : d1 = d0 := by
      have hnd := newDocsSpec_ids_nodup bd c subs keys nid
      exact List.inj_on_of_nodup_map hnd hd1 hd0 hid
    apply hp
    have := (Bool.and_eq_true _ _).mp hecond
    have h2 := this.2
    rw [hd1d0] at h2
    simpa using h2

theorem generate_single_trace_dates (st : GenState) (s : Subscription) (now : Date)
    (hfresh : ∀ d ∈ st.docs, d.id < st.nextId) :
    ∀ a b d0, Event.addCharge a b d0 ∈
      (generate_for_single_subscription_now st s now).trace →
    Event.addCharge a b d0 ∈ st.trace ∨ d0 = now := by
  rw [generate_single_eq st s now hfresh]
  intro a b d0 hmem
  dsimp only at hmem
  rcases List.mem_append.mp hmem with h | h
  · exact Or.inl h
  · rcases List.mem_cons.mp h with heq | h
    · cases heq
    · rcases List.mem_cons.mp h with heq | h
      · injection heq with h1 h2 h3
        exact Or.inr h3
      · rcases List.mem_append.mp h with h | h
        · rcases mem_endEvents h with heq | heq <;> cases heq
        · rcases mem_issueEvents h with heq | heq <;> cases heq

/-- **C1**: for a customer with consolidated billing, one pass of the full run
over that customer creates exactly P billing documents, where P is the number
of distinct providers among the customer's eligible subscriptions (state in
{active, canceled} and `should_be_billed billing_date` true); no two created
documents share a provider, and each created document receives exactly the
charges of the eligible subscriptions whose plan's provider is that
document's provider, in processing order. -/
theorem claim_C1_consolidated_grouping (st : GenState) (c : Customer)
    (subs : List Subscription) (bd : Date)
    (hfresh : ∀ d ∈ st.docs, d.id < st.nextId) :
    ((generate_for_user_with_consolidated_billing st c subs bd).docs.drop
        st.docs.length).length
      = ((eligibleSubs bd subs).map (fun s => s.plan.provider.id)).toFinset.card
    ∧ (((generate_for_user_with_consolidated_billing st c subs bd).docs.drop
        st.docs.length).map (fun d => d.provider.id)).Nodup
    ∧ ∀ d ∈ (generate_for_user_with_consolidated_billing st c subs bd).docs.drop
        st.docs.length,
      d.charges = ((eligibleSubs bd subs).filter
          (fun s => s.plan.provider.id == d.provider.id)).map (fun s => s.id)
      ∧ ∃ s0 ∈ eligibleSubs bd subs, s0.plan.provider = d.provider := by
  rw [generate_consolidated_eq st c subs bd hfresh]
  dsimp only
  rw [List.drop_left]
  refine ⟨?_, ?_, ?_⟩
  · rw [List.length_map, newDocsSpec_length_card]
    unfold eligibleSubs
    simp
  · rw [List.map_map]
    have hc : ∀ d0 ∈ newDocsSpec bd c [] st.nextId (stateFilter subs),
        ((fun d => d.provider.id) ∘ issueUpdate ((newDocsSpec bd c [] st.nextId
          (stateFilter subs)).map (fun d1 => (d1.provider, d1.id)))) d0
          = d0.provider.id := by
      intro d0 _
      dsimp only [Function.comp]
      rw [(issueUpdate_fields _ d0).2.1]
    rw [List.map_congr_left hc]
    exact newDocsSpec_pid_nodup bd c (stateFilter subs) [] st.nextId
  · intro d hd
    obtain ⟨d0, hd0, rfl⟩ := List.mem_map.mp hd
    obtain ⟨m1, m2, m3, m4, m5, s0, hs0, hs0b, hs0p⟩ :=
      newDocsSpec_mem bd c (stateFilter subs) [] st.nextId d0 hd0
    obtain ⟨f1, f2, f3, f4, f5, f6⟩ := issueUpdate_fields ((newDocsSpec bd c [] st.nextId
      (stateFilter subs)).map (fun d1 => (d1.provider, d1.id))) d0
    constructor
    · rw [f6, f2, m4, chargesFor_eligible]
    · exact ⟨s0, List.mem_filter.mpr ⟨hs0, hs0b⟩, by rw [f2]; exact hs0p⟩

/-- **C2**: for a customer without consolidated billing, one pass of the full
run over that customer creates exactly N billing documents, where N is the
number of that customer's eligible subscriptions; the k-th created document
carries exactly the charge of the k-th eligible subscription, so no document
is shared between subscriptions. -/
theorem claim_C2_noncons_one_doc_per_sub (st : GenState) (c : Customer)
    (subs : List Subscription) (bd : Date)
    (hfresh : ∀ d ∈ st.docs, d.id < st.nextId) :
    ((generate_for_user_without_consolidated_billing st c subs bd).docs.drop
        st.docs.length).length
      = (eligibleSubs bd subs).length
    ∧ ((generate_for_user_without_consolidated_billing st c subs bd).docs.drop
        st.docs.length).map (fun d => d.charges)
      = (eligibleSubs bd subs).map (fun s => [s.id]) := by
  rw [generate_noncons_eq st c subs bd hfresh]
  dsimp only
  rw [List.drop_left]
  have hmc := nonConsDocsSpec_map_charges bd c (stateFilter subs) st.nextId
  constructor
  · have hlen := congrArg List.length hmc
    rw [List.length_map, List.length_map] at hlen
    exact hlen
  · exact hmc

/-- **C3**: in the consolidated path, the appended trace splits into a loop
segment followed by an issuance segment: the loop segment contains no
`issue`/document-`save` call, the issuance segment consists only of
`issue`/document-`save` calls (so every charge precedes every issuance, and
issuance never occurs mid-loop), and each created document whose provider
is configured with `default_document_state = issued` is issued and saved in
the post-loop segment. -/
theorem claim_C3_deferred_issuance (st : GenState) (c : Customer)
    (subs : List Subscription) (bd : Date)
    (hfresh : ∀ d ∈ st.docs, d.id < st.nextId) :
    ∃ loopSeg issueSeg,
      (generate_for_user_with_consolidated_billing st c subs bd).trace
        = st.trace ++ loopSeg ++ issueSeg
      ∧ (∀ i, Event.issueDoc i ∉ loopSeg ∧ Event.saveDoc i ∉ loopSeg)
      ∧ (∀ ev ∈ issueSeg, (∃ i, ev = Event.issueDoc i) ∨ (∃ i, ev = Event.saveDoc i))
      ∧ ∀ d ∈ (generate_for_user_with_consolidated_billing st c subs bd).docs.drop
          st.docs.length,
        d.provider.default_document_state = DocState.issued →
          Event.issueDoc d.id ∈ issueSeg ∧ Event.saveDoc d.id ∈ issueSeg := by
  refine ⟨loopTraceSpec bd [] st.nextId (stateFilter subs),
    issueTraceSpec ((newDocsSpec bd c [] st.nextId (stateFilter subs)).map
      (fun d => (d.provider, d.id))), ?_, ?_, ?_, ?_⟩
  · rw [generate_consolidated_eq st c subs bd hfresh]
    dsimp only
    rw [List.append_assoc]
  · intro i
    constructor <;> intro hmem <;>
      rcases loopTraceSpec_mem_shape bd (stateFilter subs) [] st.nextId _ hmem with
        ⟨a1, b1, heq⟩ | ⟨a1, b1, heq⟩ | ⟨a1, heq⟩ | ⟨a1, heq⟩ <;> cases heq
  · exact issueTraceSpec_mem_shape _
  · rw [generate_consolidated_eq st c subs bd hfresh]
    dsimp only
    rw [List.drop_left]
    intro d hd hissued
    obtain ⟨d0, hd0, rfl⟩ := List.mem_map.mp hd
    obtain ⟨f1, f2, f3, f4, f5, f6⟩ := issueUpdate_fields ((newDocsSpec bd c [] st.nextId
      (stateFilter subs)).map (fun d1 => (d1.provider, d1.id))) d0
    rw [f2] at hissued
    rw [f1]
    exact issueTraceSpec_mem_of _ (d0.provider, d0.id) (List.mem_map_of_mem _ hd0) hissued

/-- **C4**: in every run path, the `end()`/`save()` transition of a
subscription fires exactly when the subscription is billed in that path with
state `canceled` (eligible in the full-run paths; unconditionally in the
single-subscription path), and when it fires the subscription's charge
addition immediately precedes it in the trace — so a subscription that is
not billed never transitions, and the transition does not depend on whether
the document is later issued. -/
theorem claim_C4_termination (st : GenState) (c : Customer) (subs : List Subscription)
    (bd now : Date) (s : Subscription) (hs : s ∈ subs)
    (hnodup : (subs.map (fun x => x.id)).Nodup)
    (hfresh : ∀ d ∈ st.docs, d.id < st.nextId) :
    (∃ seg, (generate_for_user_with_consolidated_billing st c subs bd).trace
        = st.trace ++ seg
      ∧ (Event.endSub s.id ∈ seg ↔ s.should_be_billed bd = true ∧ s.state = "canceled")
      ∧ (s.should_be_billed bd = true → s.state = "canceled" →
          ∃ i, List.IsInfix
            [Event.addCharge s.id i bd, Event.endSub s.id, Event.saveSub s.id] seg))
    ∧ (∃ seg, (generate_for_user_without_consolidated_billing st c subs bd).trace
        = st.trace ++ seg
      ∧ (Event.endSub s.id ∈ seg ↔ s.should_be_billed bd = true ∧ s.state = "canceled")
      ∧ (s.should_be_billed bd = true → s.state = "canceled" →
          ∃ i, List.IsInfix
            [Event.addCharge s.id i bd, Event.endSub s.id, Event.saveSub s.id] seg))
    ∧ (∃ seg, (generate_for_single_subscription_now st s now).trace = st.trace ++ seg
      ∧ (Event.endSub s.id ∈ seg ↔ s.state = "canceled")
      ∧ (s.state = "canceled" →
          ∃ i, List.IsInfix
            [Event.addCharge s.id i now, Event.endSub s.id, Event.saveSub s.id] seg)) := by
  have hinj : ∀ s0 ∈ subs, s0.id = s.id → s0 = s :=
    fun s0 h0 hid => List.inj_on_of_nodup_map hnodup h0 hs hid
  have hnotkey : ∀ (hncon : ¬(s.should_be_billed bd = true ∧ s.state = "canceled")),
      ∀ s0 ∈ stateFilter subs, s0.id = s.id →
        ¬(s0.should_be_billed bd = true ∧ s0.state = "canceled") := by
    intro hncon s0 h0 hid hcontra
    apply hncon
    have he := hinj s0 (List.mem_of_mem_filter h0) hid
    rw [← he]
    exact hcontra
  refine ⟨?_, ?_, ?_⟩
  · refine ⟨loopTraceSpec bd [] st.nextId (stateFilter subs)
      ++ issueTraceSpec ((newDocsSpec bd c [] st.nextId (stateFilter subs)).map
        (fun d => (d.provider, d.id))), ?_, ?_, ?_⟩
    · rw [generate_consolidated_eq st c subs bd hfresh]
    · constructor
      · intro hmem
        by_contra hncon
        have hmem2 : Event.endSub s.id ∈ loopTraceSpec bd [] st.nextId (stateFilter subs) := by
          rcases List.mem_append.mp hmem with h | h
          · exact h
          · rcases issueTraceSpec_mem_shape _ _ h with ⟨i, heq⟩ | ⟨i, heq⟩ <;> cases heq
        exact loopTraceSpec_end_not_mem bd (stateFilter subs) [] st.nextId s.id
          (hnotkey hncon) hmem2
      · rintro ⟨hb, hc⟩
        have hsF : s ∈ stateFilter subs := List.mem_filter.mpr ⟨hs, by simp [hc]⟩
        obtain ⟨i, hinf⟩ :=
          loopTraceSpec_end_infix bd (stateFilter subs) [] st.nextId s hsF hb hc
        exact List.mem_append_left _ (hinf.subset (by simp))
    · intro hb hc
      have hsF : s ∈ stateFilter subs := List.mem_filter.mpr ⟨hs, by simp [hc]⟩
      obtain ⟨i, hinf⟩ :=
        loopTraceSpec_end_infix bd (stateFilter subs) [] st.nextId s hsF hb hc
      exact ⟨i, infix_extend_right _ hinf⟩
  · refine ⟨nonConsTraceSpec bd st.nextId (stateFilter subs), ?_, ?_, ?_⟩
    · rw [generate_noncons_eq st c subs bd hfresh]
    · constructor
      · intro hmem
        by_contra hncon
        exact nonConsTraceSpec_end_not_mem bd (stateFilter subs) st.nextId s.id
          (hnotkey hncon) hmem
      · rintro ⟨hb, hc⟩
        have hsF : s ∈ stateFilter subs := List.mem_filter.mpr ⟨hs, by simp [hc]⟩
        obtain ⟨i, hinf⟩ :=
          nonConsTraceSpec_end_infix bd (stateFilter subs) st.nextId s hsF hb hc
        exact hinf.subset (by simp)
    · intro hb hc
      have hsF : s ∈ stateFilter subs := List.mem_filter.mpr ⟨hs, by simp [hc]⟩
      exact nonConsTraceSpec_end_infix bd (stateFilter subs) st.nextId s hsF hb hc
  · refine ⟨Event.createDoc st.nextId s.plan.provider.id ::
      Event.addCharge s.id st.nextId now ::
      (endEvents s ++ issueEvents s.plan.provider st.nextId), ?_, ?_, ?_⟩
    · rw [generate_single_eq st s now hfresh]
    · constructor
      · intro hmem
        rcases List.mem_cons.mp hmem with heq | hmem
        · cases heq
        · rcases List.mem_cons.mp hmem with heq | hmem
          · cases heq
          · rcases List.mem_append.mp hmem with h | h
            · by_contra hnc
              simp [endEvents, hnc] at h
            · rcases mem_issueEvents h with heq | heq <;> cases heq
      · intro hc
        apply List.mem_cons_of_mem
        apply List.mem_cons_of_mem
        apply List.mem_append_left
        rw [endEvents_of_canceled hc]
        simp
    · intro hc
      rw [endEvents_of_canceled hc]
      exact ⟨st.nextId, [Event.createDoc st.nextId s.plan.provider.id],
        issueEvents s.plan.provider st.nextId, by simp⟩

/-- **C5**: in every path, each document created during the customer's (or
single subscription's) processing receives exactly one `issue()` call when
its provider's `default_document_state` is `issued` and none otherwise, and
its final state is `issued` exactly in that case (otherwise it stays in the
`draft` state it was created in). -/
theorem claim_C5_issue_iff_config (st : GenState) (c : Customer)
    (subs : List Subscription) (bd now : Date) (s : Subscription)
    (hfresh : ∀ d ∈ st.docs, d.id < st.nextId) :
    (∃ seg, (generate_for_user_with_consolidated_billing st c subs bd).trace
        = st.trace ++ seg
      ∧ ∀ d ∈ (generate_for_user_with_consolidated_billing st c subs bd).docs.drop
          st.docs.length,
        seg.count (Event.issueDoc d.id)
          = (if d.provider.default_document_state = DocState.issued then 1 else 0)
        ∧ (d.state = DocState.issued
            ↔ d.provider.default_document_state = DocState.issued))
    ∧ (∃ seg, (generate_for_user_without_consolidated_billing st c subs bd).trace
        = st.trace ++ seg
      ∧ ∀ d ∈ (generate_for_user_without_consolidated_billing st c subs bd).docs.drop
          st.docs.length,
        seg.count (Event.issueDoc d.id)
          = (if d.provider.default_document_state = DocState.issued then 1 else 0)
        ∧ (d.state = DocState.issued
            ↔ d.provider.default_document_state = DocState.issued))
    ∧ (∃ seg, (generate_for_single_subscription_now st s now).trace = st.trace ++ seg
      ∧ ∀ d ∈ (generate_for_single_subscription_now st s now).docs.drop
          st.docs.length,
        seg.count (Event.issueDoc d.id)
          = (if d.provider.default_document_state = DocState.issued then 1 else 0)
        ∧ (d.state = DocState.issued
            ↔ d.provider.default_document_state = DocState.issued)) := by
  refine ⟨?_, ?_, ?_⟩
  · refine ⟨loopTraceSpec bd [] st.nextId (stateFilter subs)
      ++ issueTraceSpec ((newDocsSpec bd c [] st.nextId (stateFilter subs)).map
        (fun d => (d.provider, d.id))),
      by rw [generate_consolidated_eq st c subs bd hfresh], ?_⟩
    rw [generate_consolidated_eq st c subs bd hfresh]
    dsimp only
    rw [List.drop_left]
    intro d hd
    obtain ⟨d0, hd0, rfl⟩ := List.mem_map.mp hd
    obtain ⟨f1, f2, f3, f4, f5, f6⟩ := issueUpdate_fields ((newDocsSpec bd c [] st.nextId
      (stateFilter subs)).map (fun d1 => (d1.provider, d1.id))) d0
    have hnd : (((newDocsSpec bd c [] st.nextId (stateFilter subs)).map
        (fun d1 => (d1.provider, d1.id))).map (fun e => e.2)).Nodup := by
      rw [List.map_map]
      exact newDocsSpec_ids_nodup bd c (stateFilter subs) [] st.nextId
    constructor
    · rw [List.count_append, f1, f2]
      have h0 : (loopTraceSpec bd [] st.nextId (stateFilter subs)).count
          (Event.issueDoc d0.id) = 0 := by
        rw [List.count_eq_zero]
        intro hmem
        rcases loopTraceSpec_mem_shape bd (stateFilter subs) [] st.nextId _ hmem with
          ⟨a1, b1, heq⟩ | ⟨a1, b1, heq⟩ | ⟨a1, heq⟩ | ⟨a1, heq⟩ <;> cases heq
      rw [h0, Nat.zero_add]
      exact issueTraceSpec_count_mem _ (d0.provider, d0.id) hnd
        (List.mem_map_of_mem _ hd0)
    · rw [issueUpdate_state_self d0 hd0, f2]
      have hdraft := newDocsSpec_state_draft bd c (stateFilter subs) [] st.nextId d0 hd0
      by_cases hp : d0.provider.default_document_state = DocState.issued
      · simp [hp]
      · simp [hp, hdraft]
  · refine ⟨nonConsTraceSpec bd st.nextId (stateFilter subs),
      by rw [generate_noncons_eq st c subs bd hfresh], ?_⟩
    rw [generate_noncons_eq st c subs bd hfresh]
    dsimp only
    rw [List.drop_left]
    intro d hd
    obtain ⟨m1, m2, m3, m4, m5, s0, hs0, ha, hb2, hc2⟩ :=
      nonConsDocsSpec_mem bd c (stateFilter subs) st.nextId d hd
    constructor
    · exact nonConsTraceSpec_issue_count bd c (stateFilter subs) st.nextId d hd
    · rw [m4]
      by_cases hp : d.provider.default_document_state = DocState.issued
      · simp [hp]
      · simp [hp]
  · refine ⟨Event.createDoc st.nextId s.plan.provider.id ::
      Event.addCharge s.id st.nextId now ::
      (endEvents s ++ issueEvents s.plan.provider st.nextId),
      by rw [generate_single_eq st s now hfresh], ?_⟩
    rw [generate_single_eq st s now hfresh]
    dsimp only
    rw [List.drop_left]
    intro d hd
    rw [List.mem_singleton.mp hd]
    dsimp only
    constructor
    · have hend : (endEvents s).count (Event.issueDoc st.nextId) = 0 := by
        rw [List.count_eq_zero]
        intro hm
        rcases mem_endEvents hm with heq | heq <;> cases heq
      simp only [List.count_cons, List.count_append, hend, issueEvents_count_self]
      simp
    · by_cases hp : s.plan.provider.default_document_state = DocState.issued
      · simp [hp]
      · simp [hp]

/-- **C6**: in a full run, a subscription whose state is outside
{active, canceled} is removed by the state filter before `should_be_billed`
is ever consulted (both per-customer paths give the same result as if the
subscription were absent, for every possible `should_be_billed` predicate),
and an in-state subscription whose `should_be_billed billing_date` is false
is skipped the same silent way: no document, no charge, no transition, no
error. -/
theorem claim_C6_silent_skip (st : GenState) (c : Customer) (bd : Date)
    (pre post : List Subscription) (s : Subscription)
    (h : (s.state ≠ "active" ∧ s.state ≠ "canceled") ∨ s.should_be_billed bd = false) :
    (generate_for_user_with_consolidated_billing st c (pre ++ s :: post) bd
      = generate_for_user_with_consolidated_billing st c (pre ++ post) bd)
    ∧ (generate_for_user_without_consolidated_billing st c (pre ++ s :: post) bd
      = generate_for_user_without_consolidated_billing st c (pre ++ post) bd)
    ∧ ((s.state ≠ "active" ∧ s.state ≠ "canceled") → ∀ f,
        generate_for_user_with_consolidated_billing st c
          (pre ++ { s with should_be_billed := f } :: post) bd
          = generate_for_user_with_consolidated_billing st c (pre ++ post) bd
        ∧ generate_for_user_without_consolidated_billing st c
          (pre ++ { s with should_be_billed := f } :: post) bd
          = generate_for_user_without_consolidated_billing st c (pre ++ post) bd) := by
  refine ⟨consolidated_removal st c bd pre post s h,
    noncons_removal st c bd pre post s h, ?_⟩
  intro hstate f
  exact ⟨consolidated_removal st c bd pre post _ (Or.inl hstate),
    noncons_removal st c bd pre post _ (Or.inl hstate)⟩

/-- **C7**: a scheduled full run bills every charge, across all customers,
with the same billing date — the first calendar day of the current month —
while a single-subscription on-demand run bills with the ambient current
date unchanged. -/
theorem claim_C7_billing_date_resolution (now : Date) (crs : List CustomerRecord)
    (s : Subscription) :
    (∀ a b d0, Event.addCharge a b d0 ∈ (generate now crs none).trace →
      d0 = Date.mk now.year now.month 1)
    ∧ (∀ a b d0, Event.addCharge a b d0 ∈ (generate now crs (some s)).trace →
      d0 = now) := by
  constructor
  · intro a b d0 hmem
    have hmem2 : Event.addCharge a b d0 ∈ (crs.foldl (fun st cr =>
        if cr.customer.consolidated_billing then
          generate_for_user_with_consolidated_billing st cr.customer cr.subscriptions
            (firstOfMonth now)
        else
          generate_for_user_without_consolidated_billing st cr.customer cr.subscriptions
            (firstOfMonth now)) initState).trace := hmem
    rcases (generate_all_core now crs initState (by simp [initState])).2 a b d0 hmem2 with
      h | h
    · simp [initState] at h
    · exact h
  · intro a b d0 hmem
    have hmem2 : Event.addCharge a b d0 ∈
        (generate_for_single_subscription_now initState s now).trace := hmem
    rcases generate_single_trace_dates initState s now (by simp [initState]) a b d0 hmem2
      with h | h
    · simp [initState] at h
    · exact h

/-- **C8**: every document created in any path gets
`due_date = billing_date + customer.payment_due_days` days (the single path
using the current date and the subscription's customer); concretely,
2023-06-01 plus 15 days is 2023-06-16. -/
theorem claim_C8_due_date (st : GenState) (c : Customer) (subs : List Subscription)
    (bd now : Date) (s : Subscription)
    (hfresh : ∀ d ∈ st.docs, d.id < st.nextId) :
    (∀ d ∈ (generate_for_user_with_consolidated_billing st c subs bd).docs.drop
        st.docs.length, d.due_date = addDays bd c.payment_due_days)
    ∧ (∀ d ∈ (generate_for_user_without_consolidated_billing st c subs bd).docs.drop
        st.docs.length, d.due_date = addDays bd c.payment_due_days)
    ∧ (∀ d ∈ (generate_for_single_subscription_now st s now).docs.drop
        st.docs.length, d.due_date = addDays now s.customer.payment_due_days)
    ∧ addDays ⟨2023, 6, 1⟩ 15 = ⟨2023, 6, 16⟩ := by
  refine ⟨?_, ?_, ?_, by decide⟩
  · rw [generate_consolidated_eq st c subs bd hfresh]
    dsimp only
    rw [List.drop_left]
    intro d hd
    obtain ⟨d0, hd0, rfl⟩ := List.mem_map.mp hd
    rw [(issueUpdate_fields ((newDocsSpec bd c [] st.nextId (stateFilter subs)).map
      (fun d1 => (d1.provider, d1.id))) d0).2.2.2.2.1]
    exact (newDocsSpec_mem bd c (stateFilter subs) [] st.nextId d0 hd0).2.2.1
  · rw [generate_noncons_eq st c subs bd hfresh]
    dsimp only
    rw [List.drop_left]
    intro d hd
    exact (nonConsDocsSpec_mem bd c (stateFilter subs) st.nextId d hd).2.2.1
  · rw [generate_single_eq st s now hfresh]
    dsimp only
    rw [List.drop_left]
    intro d hd
    rw [List.mem_singleton.mp hd]

/-- **C9**: a canceled subscription passed directly to `generate` produces
exactly one fresh document, billed at the current date, carrying only that
subscription's charge; the subscription is ended and saved, the document is
issued and saved exactly when the provider's `default_document_state` is
`issued`, and nothing depends on the owning customer's
`consolidated_billing` flag. -/
theorem claim_C9_single_run (st : GenState) (s : Subscription) (now : Date)
    (hfresh : ∀ d ∈ st.docs, d.id < st.nextId) (hc : s.state = "canceled") :
    (∃ doc seg,
      (generate_for_single_subscription_now st s now).docs = st.docs ++ [doc]
      ∧ (generate_for_single_subscription_now st s now).trace = st.trace ++ seg
      ∧ doc.charges = [s.id]
      ∧ doc.customer = s.customer.id
      ∧ doc.provider = s.plan.provider
      ∧ doc.due_date = addDays now s.customer.payment_due_days
      ∧ Event.endSub s.id ∈ seg ∧ Event.saveSub s.id ∈ seg
      ∧ (doc.state = DocState.issued
          ↔ s.plan.provider.default_document_state = DocState.issued)
      ∧ ((Event.issueDoc doc.id ∈ seg ∧ Event.saveDoc doc.id ∈ seg)
          ↔ s.plan.provider.default_document_state = DocState.issued))
    ∧ ∀ b, generate_for_single_subscription_now st
        { s with customer := { s.customer with consolidated_billing := b } } now
      = generate_for_single_subscription_now st s now := by
  refine ⟨?_, fun b => rfl⟩
  rw [generate_single_eq st s now hfresh]
  refine ⟨_, _, rfl, rfl, rfl, rfl, rfl, rfl, ?_, ?_, ?_, ?_⟩
  · apply List.mem_cons_of_mem
    apply List.mem_cons_of_mem
    apply List.mem_append_left
    rw [endEvents_of_canceled hc]
    simp
  · apply List.mem_cons_of_mem
    apply List.mem_cons_of_mem
    apply List.mem_append_left
    rw [endEvents_of_canceled hc]
    simp
  · dsimp only
    by_cases hp : s.plan.provider.default_document_state = DocState.issued
    · simp [hp]
    · simp [hp]
  · dsimp only
    by_cases hp : s.plan.provider.default_document_state = DocState.issued
    · refine iff_of_true ⟨?_, ?_⟩ hp
      · apply List.mem_cons_of_mem
        apply List.mem_cons_of_mem
        apply List.mem_append_right
        simp [issueEvents, hp]
      · apply List.mem_cons_of_mem
        apply List.mem_cons_of_mem
        apply List.mem_append_right
        simp [issueEvents, hp]
    · refine iff_of_false ?_ hp
      rintro ⟨h1, h2⟩
      rcases List.mem_cons.mp h1 with heq | h1
      · cases heq
      · rcases List.mem_cons.mp h1 with heq | h1
        · cases heq
        · rcases List.mem_append.mp h1 with h1 | h1
          · rcases mem_endEvents h1 with heq | heq <;> cases heq
          · simp [issueEvents, hp] at h1

/-- **C10**: implicit behavior of the single-subscription path — it applies
neither the state filter nor the eligibility predicate: for a subscription
of any state, a document is created and the charge appended without
`should_be_billed` ever being consulted, and the only state inspection is
the `canceled` check deciding the `end()` transition. -/
theorem claim_C10_single_no_filter (st : GenState) (s : Subscription) (now : Date)
    (hfresh : ∀ d ∈ st.docs, d.id < st.nextId) :
    (generate_for_single_subscription_now st s now).docs.length = st.docs.length + 1
    ∧ (∃ seg, (generate_for_single_subscription_now st s now).trace = st.trace ++ seg
        ∧ Event.addCharge s.id st.nextId now ∈ seg
        ∧ (Event.endSub s.id ∈ seg ↔ s.state = "canceled"))
    ∧ ∀ f, generate_for_single_subscription_now st
        { s with should_be_billed := f } now
      = generate_for_single_subscription_now st s now := by
  refine ⟨?_, ?_, fun f => rfl⟩
  · rw [generate_single_eq st s now hfresh]
    simp
  · rw [generate_single_eq st s now hfresh]
    refine ⟨_, rfl, ?_, ?_⟩
    · apply List.mem_cons_of_mem
      exact List.mem_cons_self _ _
    · constructor
      · intro hmem
        rcases List.mem_cons.mp hmem with heq | hmem
        · cases heq
        · rcases List.mem_cons.mp hmem with heq | hmem
          · cases heq
          · rcases List.mem_append.mp hmem with h1 | h1
            · by_contra hnc
              simp [endEvents, hnc] at h1
            · rcases mem_issueEvents h1 with heq | heq <;> cases heq
      · intro hc
        apply List.mem_cons_of_mem
        apply List.mem_cons_of_mem
        apply List.mem_append_left
        rw [endEvents_of_canceled hc]
        simp

/-! ### Concrete sample data -/

/-- A provider configured for immediate issuance of invoices. -/
def providerX : Provider := ⟨1, Flow.invoice, DocState.issued⟩

/-- A provider leaving proformas in draft. -/
def providerY : Provider := ⟨2, Flow.proforma, DocState.draft⟩

/-- A consolidated-billing customer with 15 payment-due days. -/
def customerA : Customer := ⟨10, true, 15⟩

/-- An active, always-billable subscription under provider X. -/
def subA1 : Subscription := ⟨100, "active", ⟨providerX⟩, customerA, fun _ => true⟩

/-- A canceled, billable subscription under provider X. -/
def subA2 : Subscription := ⟨101, "canceled", ⟨providerX⟩, customerA, fun _ => true⟩

/-- An active subscription under provider Y that is not to be billed. -/
def subA3 : Subscription := ⟨102, "active", ⟨providerY⟩, customerA, fun _ => false⟩

/-- A subscription in a state outside the billing filter. -/
def subA4 : Subscription := ⟨103, "trial", ⟨providerY⟩, customerA, fun _ => true⟩

/-- The sample subscription list of customer A. -/
def sampleSubs : List Subscription := [subA1, subA2, subA3, subA4]

/-- The sample scheduled billing date. -/
def sampleDate : Date := ⟨2023, 6, 1⟩

/-- The sample ambient current date. -/
def sampleNow : Date := ⟨2023, 6, 14⟩

theorem claim_C1_witness :
    (∀ d ∈ initState.docs, d.id < initState.nextId)
    ∧ (((generate_for_user_with_consolidated_billing initState customerA sampleSubs
          sampleDate).docs.drop initState.docs.length).length
        = ((eligibleSubs sampleDate sampleSubs).map
            (fun s => s.plan.provider.id)).toFinset.card
      ∧ (((generate_for_user_with_consolidated_billing initState customerA sampleSubs
          sampleDate).docs.drop initState.docs.length).map
            (fun d => d.provider.id)).Nodup
      ∧ ∀ d ∈ (generate_for_user_with_consolidated_billing initState customerA sampleSubs
          sampleDate).docs.drop initState.docs.length,
        d.charges = ((eligibleSubs sampleDate sampleSubs).filter
            (fun s => s.plan.provider.id == d.provider.id)).map (fun s => s.id)
        ∧ ∃ s0 ∈ eligibleSubs sampleDate sampleSubs, s0.plan.provider = d.provider) :=
  ⟨by decide,
    claim_C1_consolidated_grouping initState customerA sampleSubs sampleDate (by decide)⟩

theorem claim_C2_witness :
    (∀ d ∈ initState.docs, d.id < initState.nextId)
    ∧ (((generate_for_user_without_consolidated_billing initState customerA sampleSubs
          sampleDate).docs.drop initState.docs.length).length
        = (eligibleSubs sampleDate sampleSubs).length
      ∧ ((generate_for_user_without_consolidated_billing initState customerA sampleSubs
          sampleDate).docs.drop initState.docs.length).map (fun d => d.charges)
        = (eligibleSubs sampleDate sampleSubs).map (fun s => [s.id])) :=
  ⟨by decide,
    claim_C2_noncons_one_doc_per_sub initState customerA sampleSubs sampleDate (by decide)⟩

theorem claim_C3_witness :
    (∀ d ∈ initState.docs, d.id < initState.nextId)
    ∧ (∃ loopSeg issueSeg,
      (generate_for_user_with_consolidated_billing initState customerA sampleSubs
          sampleDate).trace
        = initState.trace ++ loopSeg ++ issueSeg
      ∧ (∀ i, Event.issueDoc i ∉ loopSeg ∧ Event.saveDoc i ∉ loopSeg)
      ∧ (∀ ev ∈ issueSeg, (∃ i, ev = Event.issueDoc i) ∨ (∃ i, ev = Event.saveDoc i))
      ∧ ∀ d ∈ (generate_for_user_with_consolidated_billing initState customerA sampleSubs
          sampleDate).docs.drop initState.docs.length,
        d.provider.default_document_state = DocState.issued →
          Event.issueDoc d.id ∈ issueSeg ∧ Event.saveDoc d.id ∈ issueSeg) :=
  ⟨by decide,
    claim_C3_deferred_issuance initState customerA sampleSubs sampleDate (by decide)⟩

theorem claim_C4_witness :
    subA2 ∈ sampleSubs
    ∧ (sampleSubs.map (fun x => x.id)).Nodup
    ∧ (∀ d ∈ initState.docs, d.id < initState.nextId)
    ∧ ((∃ seg, (generate_for_user_with_consolidated_billing initState customerA sampleSubs
          sampleDate).trace = initState.trace ++ seg
        ∧ (Event.endSub subA2.id ∈ seg
            ↔ subA2.should_be_billed sampleDate = true ∧ subA2.state = "canceled")
        ∧ (subA2.should_be_billed sampleDate = true → subA2.state = "canceled" →
            ∃ i, List.IsInfix
              [Event.addCharge subA2.id i sampleDate, Event.endSub subA2.id,
                Event.saveSub subA2.id] seg))
      ∧ (∃ seg, (generate_for_user_without_consolidated_billing initState customerA
            sampleSubs sampleDate).trace = initState.trace ++ seg
        ∧ (Event.endSub subA2.id ∈ seg
            ↔ subA2.should_be_billed sampleDate = true ∧ subA2.state = "canceled")
        ∧ (subA2.should_be_billed sampleDate = true → subA2.state = "canceled" →
            ∃ i, List.IsInfix
              [Event.addCharge subA2.id i sampleDate, Event.endSub subA2.id,
                Event.saveSub subA2.id] seg))
      ∧ (∃ seg, (generate_for_single_subscription_now initState subA2 sampleNow).trace
            = initState.trace ++ seg
        ∧ (Event.endSub subA2.id ∈ seg ↔ subA2.state = "canceled")
        ∧ (subA2.state = "canceled" →
            ∃ i, List.IsInfix
              [Event.addCharge subA2.id i sampleNow, Event.endSub subA2.id,
                Event.saveSub subA2.id] seg))) :=
  ⟨List.mem_cons_of_mem _ (List.mem_cons_self _ _), by decide, by decide,
    claim_C4_termination initState customerA sampleSubs sampleDate sampleNow subA2
      (List.mem_cons_of_mem _ (List.mem_cons_self _ _)) (by decide) (by decide)⟩

theorem claim_C5_witness :
    (∀ d ∈ initState.docs, d.id < initState.nextId)
    ∧ ((∃ seg, (generate_for_user_with_consolidated_billing initState customerA sampleSubs
          sampleDate).trace = initState.trace ++ seg
        ∧ ∀ d ∈ (generate_for_user_with_consolidated_billing initState customerA
            sampleSubs sampleDate).docs.drop initState.docs.length,
          seg.count (Event.issueDoc d.id)
            = (if d.provider.default_document_state = DocState.issued then 1 else 0)
          ∧ (d.state = DocState.issued
              ↔ d.provider.default_document_state = DocState.issued))
      ∧ (∃ seg, (generate_for_user_without_consolidated_billing initState customerA
            sampleSubs sampleDate).trace = initState.trace ++ seg
        ∧ ∀ d ∈ (generate_for_user_without_consolidated_billing initState customerA
            sampleSubs sampleDate).docs.drop initState.docs.length,
          seg.count (Event.issueDoc d.id)
            = (if d.provider.default_document_state = DocState.issued then 1 else 0)
          ∧ (d.state = DocState.issued
              ↔ d.provider.default_document_state = DocState.issued))
      ∧ (∃ seg, (generate_for_single_subscription_now initState subA2 sampleNow).trace
            = initState.trace ++ seg
        ∧ ∀ d ∈ (generate_for_single_subscription_now initState subA2
            sampleNow).docs.drop initState.docs.length,
          seg.count (Event.issueDoc d.id)
            = (if d.provider.default_document_state = DocState.issued then 1 else 0)
          ∧ (d.state = DocState.issued
              ↔ d.provider.default_document_state = DocState.issued))) :=
  ⟨by decide,
    claim_C5_issue_iff_config initState customerA sampleSubs sampleDate sampleNow subA2
      (by decide)⟩

theorem claim_C6_witness :
    ((subA4.state ≠ "active" ∧ subA4.state ≠ "canceled")
      ∨ subA4.should_be_billed sampleDate = false)
    ∧ ((generate_for_user_with_consolidated_billing initState customerA
          ([subA1] ++ subA4 :: [subA2, subA3]) sampleDate
        = generate_for_user_with_consolidated_billing initState customerA
          ([subA1] ++ [subA2, subA3]) sampleDate)
      ∧ (generate_for_user_without_consolidated_billing initState customerA
          ([subA1] ++ subA4 :: [subA2, subA3]) sampleDate
        = generate_for_user_without_consolidated_billing initState customerA
          ([subA1] ++ [subA2, subA3]) sampleDate)
      ∧ ((subA4.state ≠ "active" ∧ subA4.state ≠ "canceled") → ∀ f,
          generate_for_user_with_consolidated_billing initState customerA
            ([subA1] ++ { subA4 with should_be_billed := f } :: [subA2, subA3]) sampleDate
            = generate_for_user_with_consolidated_billing initState customerA
              ([subA1] ++ [subA2, subA3]) sampleDate
          ∧ generate_for_user_without_consolidated_billing initState customerA
            ([subA1] ++ { subA4 with should_be_billed := f } :: [subA2, subA3]) sampleDate
            = generate_for_user_without_consolidated_billing initState customerA
              ([subA1] ++ [subA2, subA3]) sampleDate)) :=
  ⟨Or.inl (by decide),
    claim_C6_silent_skip initState customerA sampleDate [subA1] [subA2, subA3] subA4
      (Or.inl (by decide))⟩

theorem claim_C8_witness :
    (∀ d ∈ initState.docs, d.id < initState.nextId)
    ∧ ((∀ d ∈ (generate_for_user_with_consolidated_billing initState customerA sampleSubs
          sampleDate).docs.drop initState.docs.length,
        d.due_date = addDays sampleDate customerA.payment_due_days)
      ∧ (∀ d ∈ (generate_for_user_without_consolidated_billing initState customerA
          sampleSubs sampleDate).docs.drop initState.docs.length,
        d.due_date = addDays sampleDate customerA.payment_due_days)
      ∧ (∀ d ∈ (generate_for_single_subscription_now initState subA2
          sampleNow).docs.drop initState.docs.length,
        d.due_date = addDays sampleNow subA2.customer.payment_due_days)
      ∧ addDays ⟨2023, 6, 1⟩ 15 = ⟨2023, 6, 16⟩) :=
  ⟨by decide,
    claim_C8_due_date initState customerA sampleSubs sampleDate sampleNow subA2
      (by decide)⟩

theorem claim_C9_witness :
    (∀ d ∈ initState.docs, d.id < initState.nextId)
    ∧ subA2.state = "canceled"
    ∧ ((∃ doc seg,
        (generate_for_single_subscription_now initState subA2 sampleNow).docs
          = initState.docs ++ [doc]
        ∧ (generate_for_single_subscription_now initState subA2 sampleNow).trace
          = initState.trace ++ seg
        ∧ doc.charges = [subA2.id]
        ∧ doc.customer = subA2.customer.id
        ∧ doc.provider = subA2.plan.provider
        ∧ doc.due_date = addDays sampleNow subA2.customer.payment_due_days
        ∧ Event.endSub subA2.id ∈ seg ∧ Event.saveSub subA2.id ∈ seg
        ∧ (doc.state = DocState.issued
            ↔ subA2.plan.provider.default_document_state = DocState.issued)
        ∧ ((Event.issueDoc doc.id ∈ seg ∧ Event.saveDoc doc.id ∈ seg)
            ↔ subA2.plan.provider.default_document_state = DocState.issued))
      ∧ ∀ b, generate_for_single_subscription_now initState
          { subA2 with customer := { subA2.customer with consolidated_billing := b } }
          sampleNow
        = generate_for_single_subscription_now initState subA2 sampleNow) :=
  ⟨by decide, by decide,
    claim_C9_single_run initState subA2 sampleNow (by decide) (by decide)⟩

theorem claim_C10_witness :
    (∀ d ∈ initState.docs, d.id < initState.nextId)
    ∧ ((generate_for_single_subscription_now initState subA4 sampleNow).docs.length
        = initState.docs.length + 1
      ∧ (∃ seg, (generate_for_single_subscription_now initState subA4 sampleNow).trace
            = initState.trace ++ seg
          ∧ Event.addCharge subA4.id initState.nextId sampleNow ∈ seg
          ∧ (Event.endSub subA4.id ∈ seg ↔ subA4.state = "canceled"))
      ∧ ∀ f, generate_for_single_subscription_now initState
          { subA4 with should_be_billed := f } sampleNow
        = generate_for_single_subscription_now initState subA4 sampleNow) :=
  ⟨by decide,
    claim_C10_single_no_filter initState subA4 sampleNow (by decide)⟩

end Silver
